import Mathlib

/-!
Shallow embedding of the GraphQL-like query engine of nodepp
(include/nodepp/graphql.h): the `Json` value model (mirroring
`nlohmann::json`), the recursive-descent `GraphQLParser`, the
`Schema` executor with its two resolver registries, and the
`filterFields` projector.  Theorems at the end settle the spec
claims against these definitions.
-/

namespace GraphQL

/-- JSON value, mirroring `nlohmann::json`.  Objects are ordered maps with
unique string keys sorted lexicographically (`std::map<std::string, json>`),
represented as sorted association lists built only through `setEntry`.
Numbers keep the C++ distinction between `int` (host `int`) and `double`;
the `double` payload is modelled as an exact rational, since no behaviour
of the engine depends on IEEE rounding. -/
inductive Json where
  | null
  | bool (b : Bool)
  | int (n : Int)
  | float (q : Rat)
  | str (s : String)
  | arr (elems : List Json)
  | obj (entries : List (String × Json))
deriving Repr, Inhabited

mutual

/-- Structural equality test on `Json` values (`json::operator==`). -/
def Json.beq : Json → Json → Bool
  | .null, .null => true
  | .bool a, .bool b => a == b
  | .int a, .int b => a == b
  | .float a, .float b => a == b
  | .str a, .str b => a == b
  | .arr a, .arr b => Json.beqList a b
  | .obj a, .obj b => Json.beqEntries a b
  | _, _ => false

/-- Elementwise equality of JSON arrays. -/
def Json.beqList : List Json → List Json → Bool
  | [], [] => true
  | a :: as, b :: bs => Json.beq a b && Json.beqList as bs
  | _, _ => false

/-- Entrywise equality of JSON object entry lists. -/
def Json.beqEntries : List (String × Json) → List (String × Json) → Bool
  | [], [] => true
  | (k, a) :: as, (k', b) :: bs => k == k' && Json.beq a b && Json.beqEntries as bs
  | _, _ => false

end

mutual

theorem Json.beq_iff : ∀ a b : Json, Json.beq a b = true ↔ a = b
  | .null, .null => by simp [Json.beq]
  | .bool a, .bool b => by simp [Json.beq]
  | .int a, .int b => by simp [Json.beq]
  | .float a, .float b => by simp [Json.beq]
  | .str a, .str b => by simp [Json.beq]
  | .arr a, .arr b => by
      simp only [Json.beq, Json.arr.injEq]
      exact Json.beqList_iff a b
  | .obj a, .obj b => by
      simp only [Json.beq, Json.obj.injEq]
      exact Json.beqEntries_iff a b
  | .null, .bool _ | .null, .int _ | .null, .float _ | .null, .str _ | .null, .arr _ | .null, .obj _
  | .bool _, .null | .bool _, .int _ | .bool _, .float _ | .bool _, .str _ | .bool _, .arr _ | .bool _, .obj _
  | .int _, .null | .int _, .bool _ | .int _, .float _ | .int _, .str _ | .int _, .arr _ | .int _, .obj _
  | .float _, .null | .float _, .bool _ | .float _, .int _ | .float _, .str _ | .float _, .arr _ | .float _, .obj _
  | .str _, .null | .str _, .bool _ | .str _, .int _ | .str _, .float _ | .str _, .arr _ | .str _, .obj _
  | .arr _, .null | .arr _, .bool _ | .arr _, .int _ | .arr _, .float _ | .arr _, .str _ | .arr _, .obj _
  | .obj _, .null | .obj _, .bool _ | .obj _, .int _ | .obj _, .float _ | .obj _, .str _ | .obj _, .arr _ => by
      simp [Json.beq]

theorem Json.beqList_iff : ∀ a b : List Json, Json.beqList a b = true ↔ a = b
  | [], [] => by simp [Json.beqList]
  | a :: as, b :: bs => by
      simp only [Json.beqList, Bool.and_eq_true, List.cons.injEq]
      exact and_congr (Json.beq_iff a b) (Json.beqList_iff as bs)
  | [], _ :: _ => by simp [Json.beqList]
  | _ :: _, [] => by simp [Json.beqList]

theorem Json.beqEntries_iff :
    ∀ a b : List (String × Json), Json.beqEntries a b = true ↔ a = b
  | [], [] => by simp [Json.beqEntries]
  | (k, a) :: as, (k', b) :: bs => by
      simp only [Json.beqEntries, Bool.and_eq_true, List.cons.injEq, Prod.mk.injEq, beq_iff_eq]
      rw [Json.beq_iff a b, Json.beqEntries_iff as bs, and_assoc]
  | [], _ :: _ => by simp [Json.beqEntries]
  | _ :: _, [] => by simp [Json.beqEntries]

end

instance : DecidableEq Json := fun a b =>
  decidable_of_iff (Json.beq a b = true) (Json.beq_iff a b)

instance {ε α : Type} [DecidableEq ε] [DecidableEq α] : DecidableEq (Except ε α)
  | .error e, .error e' => decidable_of_iff (e = e') (by simp)
  | .error _, .ok _ => isFalse (by simp)
  | .ok _, .error _ => isFalse (by simp)
  | .ok a, .ok a' => decidable_of_iff (a = a') (by simp)

/-- Lexicographic comparison of char lists; on the strings the engine handles
this coincides with `std::less<std::string>`, the key order of `std::map`. -/
def charsLt : List Char → List Char → Bool
  | [], [] => false
  | [], _ :: _ => true
  | _ :: _, [] => false
  | a :: as, b :: bs =>
    if a.toNat < b.toNat then true
    else if b.toNat < a.toNat then false
    else charsLt as bs

/-- String comparison used for the sorted-map key order. -/
def strLt (a b : String) : Bool := charsLt a.toList b.toList

/-- Insert-or-assign into a key-sorted association list, the semantics of
`json::operator[]` assignment on an object (`std::map::operator[]`). -/
def setEntry (k : String) (v : Json) : List (String × Json) → List (String × Json)
  | [] => [(k, v)]
  | (k', v') :: rest =>
    if k = k' then (k, v) :: rest
    else if strLt k k' then (k, v) :: (k', v') :: rest
    else (k', v') :: setEntry k v rest

/-- Key lookup in an association list (`json::operator[]` read /
`json::contains`). -/
def lookupKey (l : List (String × Json)) (k : String) : Option Json :=
  match l with
  | [] => none
  | (k', v) :: rest => if k = k' then some v else lookupKey rest k

/-- `json::contains` on an object's entry list. -/
def containsKey (l : List (String × Json)) (k : String) : Bool :=
  (lookupKey l k).isSome

/-- Whether a value is a JSON object (`json::is_object`). -/
def Json.isObj : Json → Bool
  | .obj _ => true
  | _ => false

/-- Whether a value is a JSON array (`json::is_array`). -/
def Json.isArr : Json → Bool
  | .arr _ => true
  | _ => false

/-- The entry list of an object, else `[]`. -/
def Json.objEntries : Json → List (String × Json)
  | .obj l => l
  | _ => []

/-- The element list of an array, else `[]`. -/
def Json.arrItems : Json → List Json
  | .arr l => l
  | _ => []

/-- Key read on a `Json` value: `some` only for objects that hold the key. -/
def Json.getKey : Json → String → Option Json
  | .obj l, k => lookupKey l k
  | _, _ => none

/-- The list of keys of an object's entry list, in stored (sorted) order. -/
def keysOf (l : List (String × Json)) : List String := l.map Prod.fst

/-!
The parser (`detail::GraphQLParser`).  The C++ class walks a fixed source
string with a cursor `pos_`; we model the state as the pair of the remaining
character list and the absolute position, so that `peek()` is the head of the
list (`'\x00'` past the end, the C++ sentinel) and `advance()` is the tail.
Scanner helpers recurse structurally on the remaining list.  The mutually
recursive grammar productions take an explicit fuel counter, decremented at
every mutual call; `parseFuel` below supplies a bound shown sufficient by
`parseDocumentF_no_fuel`, so the fuel branch is unreachable from `parse`.
-/

/-- One field selection of the AST (`FieldSelection`).  `fAlias` is the C++
`alias` member, `""` when absent; `arguments` is always a JSON object in the
source (built by `parseArguments` or set to `json::object()`), modelled as
its entry list. -/
structure FieldSelection where
  name : String
  fAlias : String
  arguments : List (String × Json)
  selections : List FieldSelection
deriving Repr, Inhabited

/-- The parsed document (`ParsedQuery`); `operationName` is `""` when absent,
as in the C++ struct. -/
structure ParsedQuery where
  operationType : String
  operationName : String
  selections : List FieldSelection
deriving Repr, Inhabited

mutual

/-- Structural equality test on field selections. -/
def FieldSelection.beq : FieldSelection → FieldSelection → Bool
  | ⟨n, a, args, sels⟩, ⟨n', a', args', sels'⟩ =>
    n == n' && a == a' && decide (args = args') && FieldSelection.beqList sels sels'

/-- Elementwise equality of selection lists. -/
def FieldSelection.beqList : List FieldSelection → List FieldSelection → Bool
  | [], [] => true
  | f :: fs, g :: gs => FieldSelection.beq f g && FieldSelection.beqList fs gs
  | _, _ => false

end

mutual

theorem FieldSelection.beqSel_iff : ∀ a b : FieldSelection, FieldSelection.beq a b = true ↔ a = b
  | ⟨n, a, args, sels⟩, ⟨n', a', args', sels'⟩ => by
      simp only [FieldSelection.beq, Bool.and_eq_true, beq_iff_eq, decide_eq_true_eq,
        FieldSelection.mk.injEq]
      rw [FieldSelection.beqSelList_iff sels sels']
      tauto

theorem FieldSelection.beqSelList_iff :
    ∀ a b : List FieldSelection, FieldSelection.beqList a b = true ↔ a = b
  | [], [] => by simp [FieldSelection.beqList]
  | f :: fs, g :: gs => by
      simp only [FieldSelection.beqList, Bool.and_eq_true, List.cons.injEq]
      exact and_congr (FieldSelection.beqSel_iff f g) (FieldSelection.beqSelList_iff fs gs)
  | [], _ :: _ => by simp [FieldSelection.beqList]
  | _ :: _, [] => by simp [FieldSelection.beqList]

end

instance : DecidableEq FieldSelection := fun a b =>
  decidable_of_iff (FieldSelection.beq a b = true) (FieldSelection.beqSel_iff a b)

instance : DecidableEq ParsedQuery := fun a b =>
  decidable_of_iff
    (a.operationType = b.operationType ∧ a.operationName = b.operationName ∧
      a.selections = b.selections)
    (by cases a; cases b; simp)

/-- Parser errors: a thrown `std::runtime_error` message, or fuel exhaustion
of the model (unreachable at `parseFuel`). -/
inductive PErr where
  | msg (m : String)
  | fuel
deriving DecidableEq, Repr

/-- Embed a scanner-helper error into `PErr`. -/
def liftE : Except String α → Except PErr α
  | .error e => .error (.msg e)
  | .ok a => .ok a

/-- `peek()`: head of the remaining input, `'\x00'` at the end. -/
def peekC (l : List Char) : Char := l.headD '\x00'

/-- Characters skipped between tokens (whitespace and commas), compared by
character code as the C++ `char` comparisons do. -/
def isWsChar (c : Char) : Bool :=
  c.toNat = 32 || c.toNat = 9 || c.toNat = 10 || c.toNat = 13 || c.toNat = 44

/-- `skipWhitespace()`. -/
def skipWs : List Char → Nat → List Char × Nat
  | [], pos => ([], pos)
  | c :: rest, pos => if isWsChar c then skipWs rest (pos + 1) else (c :: rest, pos)

/-- `isIdentChar`: letters, digits and underscore, by character code. -/
def isIdentChar (c : Char) : Bool :=
  (97 ≤ c.toNat && c.toNat ≤ 122) || (65 ≤ c.toNat && c.toNat ≤ 90) ||
  (48 ≤ c.toNat && c.toNat ≤ 57) || c.toNat = 95

/-- Digit test (`peek() >= '0' && peek() <= '9'`). -/
def isDigitC (c : Char) : Bool := 48 ≤ c.toNat && c.toNat ≤ 57

/-- `expect(c)`: skip whitespace, consume one character and require it to be
`c`; the error carries the position after the attempted `advance()`. -/
def expectC (c : Char) (l : List Char) (pos : Nat) : Except String (List Char × Nat) :=
  let (l1, p1) := skipWs l pos
  match l1 with
  | [] => .error ("Expected '" ++ String.singleton c ++ "' at position " ++ toString p1)
  | ch :: rest =>
    if ch = c then .ok (rest, p1 + 1)
    else .error ("Expected '" ++ String.singleton c ++ "' at position " ++ toString (p1 + 1))

/-- The identifier-scanning loop of `parseIdentifier`. -/
def takeIdent : List Char → Nat → String → String × List Char × Nat
  | [], pos, acc => (acc, [], pos)
  | c :: rest, pos, acc =>
    if isIdentChar c then takeIdent rest (pos + 1) (acc.push c)
    else (acc, c :: rest, pos)

/-- `parseIdentifier()`. -/
def parseIdentifier (l : List Char) (pos : Nat) : Except String (String × List Char × Nat) :=
  let (l1, p1) := skipWs l pos
  let (w, l2, p2) := takeIdent l1 p1 ""
  if w.isEmpty then .error ("Expected identifier at position " ++ toString p1)
  else .ok (w, l2, p2)

/-- The loop of `skipBalanced` after the opening delimiter: consume until the
depth returns to zero or the input ends (no error on imbalance). -/
def skipBalancedAux (oc cc : Char) : List Char → Nat → Nat → List Char × Nat
  | l, pos, 0 => (l, pos)
  | [], pos, _ + 1 => ([], pos)
  | c :: rest, pos, depth + 1 =>
    let d1 := depth + 1 + (if c = oc then 1 else 0)
    skipBalancedAux oc cc rest (pos + 1) (d1 - (if c = cc then 1 else 0))

/-- `skipBalanced(open, close)`. -/
def skipBalanced (oc cc : Char) (l : List Char) (pos : Nat) :
    Except String (List Char × Nat) := do
  let (l1, p1) ← expectC oc l pos
  .ok (skipBalancedAux oc cc l1 p1 1)

/-- Translation of the backslash escapes of `parseString` (`\n \t \" \\`;
any other escaped character passes through unchanged). -/
def escMap (e : Char) : Char :=
  if e = 'n' then '\n' else if e = 't' then '\t'
  else if e = '"' then '"' else if e = '\\' then '\\' else e

/-- The body loop of `parseString`: scan until an unescaped quote or the end
of input; an escape at the end of input appends the `'\x00'` returned by
`advance()`, as the C++ does. -/
def parseStringAux : List Char → Nat → String → String × List Char × Nat
  | [], pos, acc => (acc, [], pos)
  | c :: rest, pos, acc =>
    if c = '"' then (acc, c :: rest, pos)
    else if c = '\\' then
      match rest with
      | [] => (acc.push '\x00', [], pos + 1)
      | e :: rest2 => parseStringAux rest2 (pos + 2) (acc.push (escMap e))
    else parseStringAux rest (pos + 1) (acc.push c)

/-- `parseString()`. -/
def parseString (l : List Char) (pos : Nat) : Except String (String × List Char × Nat) := do
  let (l1, p1) ← expectC '"' l pos
  let (sres, l2, p2) := parseStringAux l1 p1 ""
  let (l3, p3) ← expectC '"' l2 p2
  .ok (sres, l3, p3)

/-- The digit-scanning loops of `parseNumber`. -/
def takeDigits : List Char → Nat → String → String × List Char × Nat
  | [], pos, acc => (acc, [], pos)
  | c :: rest, pos, acc =>
    if isDigitC c then takeDigits rest (pos + 1) (acc.push c)
    else (acc, c :: rest, pos)

/-- Numeric value of a digit string. -/
def digitsVal (s : String) : Nat :=
  s.toList.foldl (fun a c => a * 10 + (c.toNat - 48)) 0

/-- Model of `std::stoi` on the scanned `[-]digits` text: `invalid_argument`
when no digits were scanned, `out_of_range` outside the 32-bit `int` range
(both surface as `what() == "stoi"` in libstdc++). -/
def stoiModel (neg : Bool) (ds : String) : Except String Int :=
  if ds.isEmpty then .error "stoi"
  else
    let v : Int := if neg then -(digitsVal ds : Int) else (digitsVal ds : Int)
    if v < -2147483648 ∨ 2147483647 < v then .error "stoi" else .ok v

/-- Model of `std::stod` on the scanned `[-]digits.digits` text:
`invalid_argument` when no digit was scanned at all; the value is kept as an
exact rational (the engine never computes with it, so IEEE rounding, and the
`out_of_range` overflow/underflow of literals beyond double range, are not
modelled — no claim depends on them). -/
def stodModel (neg : Bool) (ds fs : String) : Except String Rat :=
  if ds.isEmpty && fs.isEmpty then .error "stod"
  else
    let num : Int := digitsVal ds * 10 ^ fs.length + digitsVal fs
    .ok (mkRat (if neg then -num else num) (10 ^ fs.length))

/-- `parseNumber()`: optional minus, digits, optional fraction; `.` marks the
value `double`, otherwise `int` via `stoi`. -/
def parseNumber (l : List Char) (pos : Nat) : Except String (Json × List Char × Nat) :=
  let (l1, p1) := skipWs l pos
  let (neg, l2, p2) :=
    if peekC l1 = '-' then (true, l1.tail, p1 + 1) else (false, l1, p1)
  let (ds, l3, p3) := takeDigits l2 p2 ""
  if peekC l3 = '.' then
    let (fs, l4, p4) := takeDigits l3.tail (p3 + 1) ""
    match stodModel neg ds fs with
    | .error e => .error e
    | .ok q => .ok (Json.float q, l4, p4)
  else
    match stoiModel neg ds with
    | .error e => .error e
    | .ok n => .ok (Json.int n, l3, p3)

/-- `parseBool()`: consume an identifier, `true` iff it is the word `true`. -/
def parseBool (l : List Char) (pos : Nat) : Except String (Json × List Char × Nat) := do
  let (w, l1, p1) ← parseIdentifier l pos
  .ok (Json.bool (w == "true"), l1, p1)

/-- `parseNull()`: consume an identifier (the scanned word is ignored). -/
def parseNull (l : List Char) (pos : Nat) : Except String (Json × List Char × Nat) := do
  let (_, l1, p1) ← parseIdentifier l pos
  .ok (Json.null, l1, p1)

mutual

/-- `parseValue()`: dispatch on the first significant character. -/
def parseValueF (fuel : Nat) (l : List Char) (pos : Nat) :
    Except PErr (Json × List Char × Nat) :=
  match fuel with
  | 0 => .error .fuel
  | fuel + 1 =>
    let (l1, p1) := skipWs l pos
    let c := peekC l1
    if c = '"' then liftE ((parseString l1 p1).map fun r => (Json.str r.1, r.2))
    else if c = '-' || isDigitC c then
      liftE (parseNumber l1 p1)
    else if c = 't' || c = 'f' then liftE (parseBool l1 p1)
    else if c = 'n' then liftE (parseNull l1 p1)
    else if c = '{' then parseObjectValueF fuel l1 p1
    else if c = '[' then parseArrayValueF fuel l1 p1
    else liftE ((parseIdentifier l1 p1).map fun r => (Json.str r.1, r.2))
termination_by structural fuel

/-- `parseObjectValue()`. -/
def parseObjectValueF (fuel : Nat) (l : List Char) (pos : Nat) :
    Except PErr (Json × List Char × Nat) :=
  match fuel with
  | 0 => .error .fuel
  | fuel + 1 => do
    let (l1, p1) ← liftE (expectC '{' l pos)
    let (entries, l2, p2) ← parseObjectEntriesF fuel l1 p1 []
    let (l3, p3) ← liftE (expectC '}' l2 p2)
    .ok (Json.obj entries, l3, p3)
termination_by structural fuel

/-- The member loop of `parseObjectValue` (`obj[key] = parseValue()`). -/
def parseObjectEntriesF (fuel : Nat) (l : List Char) (pos : Nat)
    (acc : List (String × Json)) :
    Except PErr (List (String × Json) × List Char × Nat) :=
  match fuel with
  | 0 => .error .fuel
  | fuel + 1 =>
    let (l1, p1) := skipWs l pos
    if peekC l1 = '}' then .ok (acc, l1, p1)
    else do
      let (key, l2, p2) ← liftE (parseIdentifier l1 p1)
      let (l3, p3) ← liftE (expectC ':' l2 p2)
      let (v, l4, p4) ← parseValueF fuel l3 p3
      parseObjectEntriesF fuel l4 p4 (setEntry key v acc)
termination_by structural fuel

/-- `parseArrayValue()`. -/
def parseArrayValueF (fuel : Nat) (l : List Char) (pos : Nat) :
    Except PErr (Json × List Char × Nat) :=
  match fuel with
  | 0 => .error .fuel
  | fuel + 1 => do
    let (l1, p1) ← liftE (expectC '[' l pos)
    let (items, l2, p2) ← parseArrayItemsF fuel l1 p1 []
    let (l3, p3) ← liftE (expectC ']' l2 p2)
    .ok (Json.arr items, l3, p3)
termination_by structural fuel

/-- The element loop of `parseArrayValue` (`arr.push_back(parseValue())`). -/
def parseArrayItemsF (fuel : Nat) (l : List Char) (pos : Nat) (acc : List Json) :
    Except PErr (List Json × List Char × Nat) :=
  match fuel with
  | 0 => .error .fuel
  | fuel + 1 =>
    let (l1, p1) := skipWs l pos
    if peekC l1 = ']' then .ok (acc, l1, p1)
    else do
      let (v, l2, p2) ← parseValueF fuel l1 p1
      parseArrayItemsF fuel l2 p2 (acc ++ [v])
termination_by structural fuel

end

/-- The argument loop of `parseArguments` (`args[name] = parseValue()`). -/
def parseArgsEntriesF (fuel : Nat) (l : List Char) (pos : Nat)
    (acc : List (String × Json)) :
    Except PErr (List (String × Json) × List Char × Nat) :=
  match fuel with
  | 0 => .error .fuel
  | fuel + 1 =>
    let (l1, p1) := skipWs l pos
    if peekC l1 = ')' then .ok (acc, l1, p1)
    else do
      let (name, l2, p2) ← liftE (parseIdentifier l1 p1)
      let (l3, p3) ← liftE (expectC ':' l2 p2)
      let (v, l4, p4) ← parseValueF fuel l3 p3
      parseArgsEntriesF fuel l4 p4 (setEntry name v acc)
termination_by structural fuel

/-- `parseArguments()`. -/
def parseArgumentsF (fuel : Nat) (l : List Char) (pos : Nat) :
    Except PErr (List (String × Json) × List Char × Nat) := do
  let (l1, p1) ← liftE (expectC '(' l pos)
  let (args, l2, p2) ← parseArgsEntriesF fuel l1 p1 []
  let (l3, p3) ← liftE (expectC ')' l2 p2)
  .ok (args, l3, p3)

mutual

/-- `parseField()`: optional `alias ':'`, name, optional arguments, optional
nested selection set. -/
def parseFieldF (fuel : Nat) (l : List Char) (pos : Nat) :
    Except PErr (FieldSelection × List Char × Nat) :=
  match fuel with
  | 0 => .error .fuel
  | fuel + 1 => do
    let (nameOrAlias, l1, p1) ← liftE (parseIdentifier l pos)
    let (l2, p2) := skipWs l1 p1
    let (fname, falias, l3, p3) ←
      if peekC l2 = ':' then do
        let (w, l4, p4) ← liftE (parseIdentifier l2.tail (p2 + 1))
        let (l5, p5) := skipWs l4 p4
        pure (w, nameOrAlias, l5, p5)
      else
        pure (nameOrAlias, "", l2, p2)
    let (args, l6, p6) ←
      if peekC l3 = '(' then parseArgumentsF fuel l3 p3
      else pure ([], l3, p3)
    let (l7, p7) := skipWs l6 p6
    let (sels, l8, p8) ←
      if peekC l7 = '{' then parseSelectionSetF fuel l7 p7
      else pure ([], l7, p7)
    .ok (⟨fname, falias, args, sels⟩, l8, p8)
termination_by structural fuel

/-- `parseSelectionSet()`. -/
def parseSelectionSetF (fuel : Nat) (l : List Char) (pos : Nat) :
    Except PErr (List FieldSelection × List Char × Nat) :=
  match fuel with
  | 0 => .error .fuel
  | fuel + 1 => do
    let (l1, p1) ← liftE (expectC '{' l pos)
    let (l2, p2) := skipWs l1 p1
    let (sels, l3, p3) ← parseSelItemsF fuel l2 p2 []
    let (l4, p4) ← liftE (expectC '}' l3 p3)
    .ok (sels, l4, p4)
termination_by structural fuel

/-- The field loop of `parseSelectionSet` (`while peek != '}' && peek != '\0'`). -/
def parseSelItemsF (fuel : Nat) (l : List Char) (pos : Nat)
    (acc : List FieldSelection) :
    Except PErr (List FieldSelection × List Char × Nat) :=
  match fuel with
  | 0 => .error .fuel
  | fuel + 1 =>
    if peekC l = '}' || peekC l = '\x00' then .ok (acc, l, pos)
    else do
      let (f, l1, p1) ← parseFieldF fuel l pos
      let (l2, p2) := skipWs l1 p1
      parseSelItemsF fuel l2 p2 (acc ++ [f])
termination_by structural fuel

end

/-- `GraphQLParser::parse()`: operation keyword (or implicit query), optional
operation name, discarded variable definitions, then the selection set. -/
def parseDocumentF (fuel : Nat) (l : List Char) (pos : Nat) :
    Except PErr (ParsedQuery × List Char × Nat) := do
  match skipWs l pos with
  | (l1, p1) =>
    if peekC l1 = '{' then
      match parseSelectionSetF fuel l1 p1 with
      | .error e => .error e
      | .ok (sels, l2, p2) => .ok (⟨"query", "", sels⟩, l2, p2)
    else
      match parseIdentifier l1 p1 with
      | .error e => .error (.msg e)
      | .ok (kw, l2, p2) =>
        if kw = "query" || kw = "mutation" then
          match skipWs l2 p2 with
          | (l3, p3) =>
            match
              (if peekC l3 != '{' && peekC l3 != '(' then
                match parseIdentifier l3 p3 with
                | .error e => .error (.msg e)
                | .ok (w, l5, p5) =>
                  match skipWs l5 p5 with
                  | (l6, p6) => .ok (w, l6, p6)
              else .ok ("", l3, p3) :
                Except PErr (String × List Char × Nat)) with
            | .error e => .error e
            | .ok (opName, l4, p4) =>
              match
                (if peekC l4 = '(' then
                  match skipBalanced '(' ')' l4 p4 with
                  | .error e => .error (.msg e)
                  | .ok (l8, p8) => .ok (skipWs l8 p8)
                else .ok (l4, p4) : Except PErr (List Char × Nat)) with
              | .error e => .error e
              | .ok (l7, p7) =>
                match parseSelectionSetF fuel l7 p7 with
                | .error e => .error e
                | .ok (sels, l10, p10) => .ok (⟨kw, opName, sels⟩, l10, p10)
        else .error (.msg ("Expected 'query' or 'mutation', got '" ++ kw ++ "'"))

/-- Fuel supplied to the grammar productions; `parseDocumentF_no_fuel` below
shows it is never exhausted. -/
def parseFuel (s : String) : Nat := 3 * s.length + 16

/-- The public parser entry point: the whole `GraphQLParser(source).parse()`
call, returning the AST or the thrown diagnostic message. -/
def parse (s : String) : Except String ParsedQuery :=
  match parseDocumentF (parseFuel s) s.toList 0 with
  | .ok (q, _, _) => .ok q
  | .error (.msg m) => .error m
  | .error .fuel => .error "parser fuel exhausted"

/-- The input state at which `parse()` invokes the selection-set production:
the walk of `parseDocumentF` up to that call (operation keyword, optional
operation name, discarded variable definitions), `none` when the walk fails
before reaching it.  Computed from the query text alone, it names, for an
accepted query, the spot in that query where its selection set starts. -/
def docSelInput (l : List Char) (pos : Nat) : Option (List Char × Nat) :=
  match skipWs l pos with
  | (l1, p1) =>
    if peekC l1 = '{' then some (l1, p1)
    else
      match parseIdentifier l1 p1 with
      | .error _ => none
      | .ok (kw, l2, p2) =>
        if kw = "query" || kw = "mutation" then
          match skipWs l2 p2 with
          | (l3, p3) =>
            match
              (if peekC l3 != '{' && peekC l3 != '(' then
                match parseIdentifier l3 p3 with
                | .error e => .error (.msg e)
                | .ok (w, l5, p5) =>
                  match skipWs l5 p5 with
                  | (l6, p6) => .ok (w, l6, p6)
              else .ok ("", l3, p3) :
                Except PErr (String × List Char × Nat)) with
            | .error _ => none
            | .ok (_, l4, p4) =>
              match
                (if peekC l4 = '(' then
                  match skipBalanced '(' ')' l4 p4 with
                  | .error e => .error (.msg e)
                  | .ok (l8, p8) => .ok (skipWs l8 p8)
                else .ok (l4, p4) : Except PErr (List Char × Nat)) with
              | .error _ => none
              | .ok (l7, p7) => some (l7, p7)
        else none

/-!
The executor (`class Schema`).  A resolver is user code receiving the merged
arguments and the context and returning a value, or failing with the message
of the `std::exception` it threw.  Execution is instrumented with a ghost
trace of resolver invocations so that claims about which resolvers run can
be stated; the trace changes nothing about the computed envelope.
-/

/-- `graphql::Resolver`: `(arguments, context) -> value`, or a failure
carrying the thrown exception's `what()` text. -/
def Resolver : Type := Json → Json → Except String Json

/-- One resolver invocation, as recorded in the ghost trace: the field name
it was registered under, the merged argument object, and the context. -/
structure Invocation where
  field : String
  args : Json
  ctx : Json
deriving DecidableEq, Repr

/-- The output key of a field: `field.alias.empty() ? field.name : field.alias`. -/
def aliasOrName (f : FieldSelection) : String :=
  if f.fAlias = "" then f.name else f.fAlias

/-- Argument merging of `Schema::execute`: start from the literal arguments
and add each variable entry whose key is not already present
(`if (!args.contains(key)) args[key] = value`).  `nlohmann::json` iterates an
object's entries in stored (key-sorted) order; the model folds over the entry
list in list order, which subsumes it. -/
def mergeArgs (litArgs : List (String × Json)) (vars : List (String × Json)) :
    List (String × Json) :=
  vars.foldl
    (fun args kv => if containsKey args kv.1 then args else setEntry kv.1 kv.2 args)
    litArgs

/-- The error object appended for a top-level field with no registered
resolver.  The C++ initializer list `{{"message", …}, {"locations", …},
{"path", …}}` builds a `std::map`, so the stored entry order is key-sorted;
the literal below is written in that sorted order. -/
def unknownFieldError (name opType : String) : Json :=
  Json.obj
    [("locations", Json.arr []),
     ("message",
      Json.str ("Cannot query field '" ++ name ++ "' on type '" ++ opType ++ "'")),
     ("path", Json.arr [Json.str name])]

/-- The error object appended when a resolver throws: `{{"message",
e.what()}, {"path", {field.name}}}`, again in key-sorted stored order. -/
def resolverError (msg name : String) : Json :=
  Json.obj [("message", Json.str msg), ("path", Json.arr [Json.str name])]

/-- A selection's own nested list is smaller than any selection list holding
the selection, the measure fact behind `filterFields` termination. -/
theorem sels_sizeOf_lt (sel : FieldSelection) (rest : List FieldSelection) :
    sizeOf sel.selections < sizeOf (sel :: rest) := by
  cases sel
  simp only [List.cons.sizeOf_spec, FieldSelection.mk.sizeOf_spec]
  omega

mutual

/-- `Schema::filterFields`: project the entries of `source` requested by
`selections` into `target` (`target[key] = …` is insert-or-assign on the
`std::map`).  A selection whose name `source` lacks contributes nothing. -/
def filterFields (source : Json) (selections : List FieldSelection)
    (target : List (String × Json)) : List (String × Json) :=
  match selections with
  | [] => target
  | sel :: rest =>
    let key := aliasOrName sel
    let target' :=
      match source.getKey sel.name with
      | none => target
      | some v =>
        if !sel.selections.isEmpty && v.isObj then
          setEntry key (Json.obj (filterFields v sel.selections [])) target
        else if !sel.selections.isEmpty && v.isArr then
          setEntry key (Json.arr (filterItems v.arrItems sel.selections)) target
        else setEntry key v target
    filterFields source rest target'
termination_by (sizeOf selections, 0)
decreasing_by
  all_goals
    first
    | exact Prod.Lex.left _ _ (sels_sizeOf_lt sel rest)
    | exact Prod.Lex.left _ _ (by simp only [List.cons.sizeOf_spec]; omega)
    | exact Prod.Lex.right _ (by simp only [List.cons.sizeOf_spec]; omega)
    | exact Prod.Lex.right _ (by omega)

/-- The array branch of `filterFields`: object elements are filtered with the
same child selections, other elements pass through unchanged. -/
def filterItems (items : List Json) (selections : List FieldSelection) : List Json :=
  match items with
  | [] => []
  | item :: rest =>
    (if item.isObj then Json.obj (filterFields item selections []) else item) ::
      filterItems rest selections
termination_by (sizeOf selections, 1 + sizeOf items)
decreasing_by
  all_goals
    first
    | exact Prod.Lex.left _ _ (sels_sizeOf_lt sel rest)
    | exact Prod.Lex.left _ _ (by simp only [List.cons.sizeOf_spec]; omega)
    | exact Prod.Lex.right _ (by simp only [List.cons.sizeOf_spec]; omega)
    | exact Prod.Lex.right _ (by omega)

end

/-- What executing one top-level field selection contributes: the resolver
invocations performed (zero or one), the write into `data` (none, when the
field is unknown), and the errors appended. -/
structure FieldOutcome where
  invs : List Invocation
  write : Option (String × Json)
  errs : List Json
deriving Repr

/-- The body of the per-field loop of `Schema::execute` for one field:
resolver lookup, argument merging, invocation, projection, and the
unknown-field and resolver-failure error paths.  Note that the
resolver-failure path writes `data[field.name] = nullptr` — the name, not
the alias — exactly as the C++ does. -/
def execField (resolvers : String → Option Resolver) (opType : String)
    (vars : List (String × Json)) (context : Json) (field : FieldSelection) :
    FieldOutcome :=
  match resolvers field.name with
  | none => ⟨[], none, [unknownFieldError field.name opType]⟩
  | some r =>
    let args := Json.obj (mergeArgs field.arguments vars)
    match r args context with
    | .error msg =>
      ⟨[⟨field.name, args, context⟩], some (field.name, Json.null),
        [resolverError msg field.name]⟩
    | .ok result =>
      let resultJson :=
        if !field.selections.isEmpty && result.isObj then
          Json.obj (filterFields result field.selections [])
        else result
      ⟨[⟨field.name, args, context⟩], some (aliasOrName field, resultJson), []⟩

/-- The accumulated outcome of the whole per-field loop, in source order. -/
structure ExecLog where
  invs : List Invocation
  writes : List (String × Json)
  errs : List Json
deriving Repr

/-- The per-field loop of `Schema::execute` over the top-level selections,
in source order; each field's contribution is independent of its siblings. -/
def execFields (resolvers : String → Option Resolver) (opType : String)
    (vars : List (String × Json)) (context : Json) :
    List FieldSelection → ExecLog
  | [] => ⟨[], [], []⟩
  | f :: rest =>
    let o := execField resolvers opType vars context f
    let tail := execFields resolvers opType vars context rest
    ⟨o.invs ++ tail.invs, o.write.toList ++ tail.writes, o.errs ++ tail.errs⟩

/-- Replay the `data[key] = value` writes, in order, onto the initially empty
`data` object. -/
def applyWrites (ws : List (String × Json)) : List (String × Json) :=
  ws.foldl (fun t kv => setEntry kv.1 kv.2 t) []

/-- `graphql::Schema`: the two independent resolver registries
(`unordered_map` lookup modelled as a partial map). -/
structure Schema where
  queryResolvers : String → Option Resolver
  mutationResolvers : String → Option Resolver

/-- The schema with no registered resolvers. -/
def Schema.empty : Schema := ⟨fun _ => none, fun _ => none⟩

/-- `Schema::query`: register a query resolver (`queryResolvers_[name] = r`). -/
def Schema.query (sch : Schema) (name : String) (r : Resolver) : Schema :=
  { sch with queryResolvers := fun n => if n = name then some r else sch.queryResolvers n }

/-- `Schema::mutation`: register a mutation resolver. -/
def Schema.mutation (sch : Schema) (name : String) (r : Resolver) : Schema :=
  { sch with mutationResolvers := fun n => if n = name then some r else sch.mutationResolvers n }

/-- The registry `Schema::execute` consults: the mutation map for a mutation
operation, else the query map. -/
def registryOf (sch : Schema) (opType : String) : String → Option Resolver :=
  if opType = "mutation" then sch.mutationResolvers else sch.queryResolvers

/-- `Schema::execute`, paired with the ghost invocation trace: parse, choose
the registry by operation type, run the per-field loop, and assemble the
envelope; a parse failure short-circuits to the `data: null` envelope with a
single `Parse error:` message and no resolver invoked. -/
def Schema.executeT (sch : Schema) (queryStr : String)
    (vars : List (String × Json)) (context : Json) : Json × List Invocation :=
  match parse queryStr with
  | .error e =>
    (Json.obj
      [("data", Json.null),
       ("errors", Json.arr [Json.obj [("message", Json.str ("Parse error: " ++ e))]])],
     [])
  | .ok parsed =>
    let resolvers := registryOf sch parsed.operationType
    let log := execFields resolvers parsed.operationType vars context parsed.selections
    let data := Json.obj (applyWrites log.writes)
    let response :=
      if log.errs.isEmpty then Json.obj [("data", data)]
      else Json.obj [("data", data), ("errors", Json.arr log.errs)]
    (response, log.invs)

/-- The response envelope of `Schema::execute`. -/
def Schema.execute (sch : Schema) (queryStr : String)
    (vars : List (String × Json)) (context : Json) : Json :=
  (sch.executeT queryStr vars context).1

/-- The resolver invocations performed by a `Schema::execute` call. -/
def Schema.executeTrace (sch : Schema) (queryStr : String)
    (vars : List (String × Json)) (context : Json) : List Invocation :=
  (sch.executeT queryStr vars context).2

/-!  Basic facts about the sorted-map operations. -/

theorem lookupKey_setEntry (k k' : String) (v : Json) (l : List (String × Json)) :
    lookupKey (setEntry k v l) k' = if k' = k then some v else lookupKey l k' := by
  induction l with
  | nil => by_cases h : k' = k <;> simp [setEntry, lookupKey, h]
  | cons kv rest ih =>
    obtain ⟨k0, v0⟩ := kv
    by_cases h1 : k = k0
    · subst h1
      by_cases h : k' = k <;> simp [setEntry, lookupKey, h]
    · by_cases h2 : strLt k k0 = true
      · by_cases h : k' = k <;> by_cases h3 : k' = k0 <;>
          simp_all [setEntry, lookupKey]
      · by_cases h3 : k' = k0
        · subst h3
          have : ¬k' = k := fun hc => h1 hc.symm
          simp [setEntry, h1, h2, lookupKey, this]
        · simp [setEntry, h1, h2, lookupKey, h3, ih]

theorem containsKey_setEntry (k k' : String) (v : Json) (l : List (String × Json)) :
    containsKey (setEntry k v l) k' = (k' = k || containsKey l k') := by
  by_cases h : k' = k <;> simp [containsKey, lookupKey_setEntry, h]

/-- The merged argument object resolves a key to the literal argument when
one exists, else to the variable entry: literal arguments win. -/
theorem mergeArgs_lookup (a vars : List (String × Json)) (k : String) :
    lookupKey (mergeArgs a vars) k = (lookupKey a k).or (lookupKey vars k) := by
  induction vars generalizing a with
  | nil => simp [mergeArgs, lookupKey]
  | cons kv rest ih =>
    obtain ⟨k0, v0⟩ := kv
    have step : mergeArgs a ((k0, v0) :: rest) =
        mergeArgs (if containsKey a k0 then a else setEntry k0 v0 a) rest := by
      simp [mergeArgs]
    rw [step]
    by_cases hc : containsKey a k0 = true
    · rw [if_pos hc, ih]
      by_cases hk : k = k0
      · subst hk
        rcases ho : lookupKey a k with _ | w
        · simp [containsKey, ho] at hc
        · simp [lookupKey, ho]
      · simp [lookupKey, hk]
    · rw [if_neg hc, ih]
      simp only [Bool.not_eq_true] at hc
      by_cases hk : k = k0
      · subst hk
        have ho : lookupKey a k = none := by
          rcases h : lookupKey a k with _ | w
          · rfl
          · simp [containsKey, h] at hc
        simp [lookupKey_setEntry, ho, lookupKey]
      · simp [lookupKey_setEntry, hk, lookupKey]

theorem containsKey_mergeArgs (a vars : List (String × Json)) (k : String) :
    containsKey (mergeArgs a vars) k = (containsKey a k || containsKey vars k) := by
  simp only [containsKey, mergeArgs_lookup]
  rcases lookupKey a k with _ | w <;> simp

/-!  Decomposition of the per-field loop: each top-level selection's
contribution is independent of its siblings. -/

theorem execFields_nil (R : String → Option Resolver) (op : String)
    (vars : List (String × Json)) (ctx : Json) :
    execFields R op vars ctx [] = ⟨[], [], []⟩ := rfl

theorem execFields_cons (R : String → Option Resolver) (op : String)
    (vars : List (String × Json)) (ctx : Json) (f : FieldSelection)
    (rest : List FieldSelection) :
    execFields R op vars ctx (f :: rest) =
      ⟨(execField R op vars ctx f).invs ++ (execFields R op vars ctx rest).invs,
       (execField R op vars ctx f).write.toList ++ (execFields R op vars ctx rest).writes,
       (execField R op vars ctx f).errs ++ (execFields R op vars ctx rest).errs⟩ := rfl

theorem execFields_append (R : String → Option Resolver) (op : String)
    (vars : List (String × Json)) (ctx : Json) (l1 l2 : List FieldSelection) :
    execFields R op vars ctx (l1 ++ l2) =
      ⟨(execFields R op vars ctx l1).invs ++ (execFields R op vars ctx l2).invs,
       (execFields R op vars ctx l1).writes ++ (execFields R op vars ctx l2).writes,
       (execFields R op vars ctx l1).errs ++ (execFields R op vars ctx l2).errs⟩ := by
  induction l1 with
  | nil => simp [execFields_nil]
  | cons f rest ih => simp [execFields_cons, ih]

/-!  Scanner-level lemmas: identifier and digit runs, and the behaviour of
`parseNumber` after a minus sign. -/

theorem isWsChar_of_isIdentChar (c : Char) (h : isIdentChar c = true) :
    isWsChar c = false := by
  simp only [isIdentChar, Bool.or_eq_true, Bool.and_eq_true, decide_eq_true_eq] at h
  simp only [isWsChar, Bool.or_eq_false_iff, decide_eq_false_iff_not]
  omega

theorem isWsChar_of_isDigitC (c : Char) (h : isDigitC c = true) :
    isWsChar c = false := by
  simp only [isDigitC, Bool.and_eq_true, decide_eq_true_eq] at h
  simp only [isWsChar, Bool.or_eq_false_iff, decide_eq_false_iff_not]
  omega

theorem skipWs_cons_not_ws (c : Char) (l : List Char) (pos : Nat)
    (h : isWsChar c = false) : skipWs (c :: l) pos = (c :: l, pos) := by
  simp [skipWs, h]

theorem takeIdent_all (l : List Char) (pos : Nat) (acc : String)
    (h : ∀ c ∈ l, isIdentChar c = true) :
    takeIdent l pos acc = (⟨acc.data ++ l⟩, [], pos + l.length) := by
  induction l generalizing pos acc with
  | nil => simp [takeIdent]
  | cons c rest ih =>
    rw [takeIdent, if_pos (h c (by simp))]
    rw [ih (pos + 1) (acc.push c) (fun x hx => h x (by simp [hx]))]
    obtain ⟨accl⟩ := acc
    simp [String.push]
    omega

theorem takeDigits_all (l : List Char) (pos : Nat) (acc : String)
    (h : ∀ c ∈ l, isDigitC c = true) :
    takeDigits l pos acc = (⟨acc.data ++ l⟩, [], pos + l.length) := by
  induction l generalizing pos acc with
  | nil => simp [takeDigits]
  | cons c rest ih =>
    rw [takeDigits, if_pos (h c (by simp))]
    rw [ih (pos + 1) (acc.push c) (fun x hx => h x (by simp [hx]))]
    obtain ⟨accl⟩ := acc
    simp [String.push]
    omega

theorem takeDigits_not_digit (c : Char) (l : List Char) (pos : Nat) (acc : String)
    (h : isDigitC c = false) : takeDigits (c :: l) pos acc = (acc, c :: l, pos) := by
  simp [takeDigits, h]

theorem parseIdentifier_all (c : Char) (rest : List Char) (pos : Nat)
    (h : ∀ x ∈ c :: rest, isIdentChar x = true) :
    parseIdentifier (c :: rest) pos =
      .ok (⟨c :: rest⟩, [], pos + (c :: rest).length) := by
  have hws := skipWs_cons_not_ws c rest pos (isWsChar_of_isIdentChar c (h c (by simp)))
  have htk := takeIdent_all (c :: rest) pos "" h
  simp [parseIdentifier, hws, htk, String.isEmpty, String.length]
  simp [String.Pos.ext_iff]
  have := Char.utf8Size_pos c
  omega

theorem digit_ne_minus (c : Char) (h : isDigitC c = true) : ¬c = '-' := by
  intro hc
  subst hc
  simp [isDigitC] at h

/-- `parseBool` on a whole identifier run: the value is `true` exactly when
the scanned word is the five characters of `true`. -/
theorem parseBool_all (c : Char) (rest : List Char) (pos : Nat)
    (h : ∀ x ∈ c :: rest, isIdentChar x = true) :
    parseBool (c :: rest) pos =
      .ok (Json.bool ((⟨c :: rest⟩ : String) == "true"), [], pos + (c :: rest).length) := by
  simp [parseBool, parseIdentifier_all c rest pos h]
  rfl

/-- `parseNull` on a whole identifier run: the scanned word is discarded. -/
theorem parseNull_all (c : Char) (rest : List Char) (pos : Nat)
    (h : ∀ x ∈ c :: rest, isIdentChar x = true) :
    parseNull (c :: rest) pos = .ok (Json.null, [], pos + (c :: rest).length) := by
  simp [parseNull, parseIdentifier_all c rest pos h]
  rfl

/-- A minus sign followed by neither a digit nor a period: the scanned digit
string is empty and `stoi` throws `invalid_argument`. -/
theorem parseNumber_minus_stoi (rest : List Char) (pos : Nat)
    (h : ∀ c l2, rest = c :: l2 → isDigitC c = false ∧ ¬c = '.') :
    parseNumber ('-' :: rest) pos = .error "stoi" := by
  have hws : skipWs ('-' :: rest) pos = ('-' :: rest, pos) :=
    skipWs_cons_not_ws _ _ _ (by decide)
  cases rest with
  | nil =>
    simp +decide [parseNumber, hws, peekC, takeDigits, stoiModel, String.isEmpty]
  | cons c l2 =>
    obtain ⟨hd, hdot⟩ := h c l2 rfl
    simp +decide [parseNumber, hws, peekC, takeDigits_not_digit c l2 (pos + 1) "" hd,
      stoiModel, String.isEmpty, hdot]

/-- A minus sign followed by a period and a digit run to the end of input:
`stod` accepts and the parsed value is a `double`, not an `int` and not a
failure. -/
theorem parseNumber_minus_frac (d : List Char) (pos : Nat) (hne : d ≠ [])
    (hd : ∀ c ∈ d, isDigitC c = true) :
    parseNumber ('-' :: '.' :: d) pos =
      .ok (Json.float (mkRat (-(digitsVal ⟨d⟩ : Int)) (10 ^ d.length)), [],
        pos + 2 + d.length) := by
  have hws : skipWs ('-' :: '.' :: d) pos = ('-' :: '.' :: d, pos) :=
    skipWs_cons_not_ws _ _ _ (by decide)
  have htd : takeDigits ('.' :: d) (pos + 1) "" = ("", '.' :: d, pos + 1) :=
    takeDigits_not_digit _ _ _ _ (by decide)
  have hta := takeDigits_all d (pos + 2) "" hd
  obtain ⟨c0, d2, rfl⟩ := List.exists_cons_of_ne_nil hne
  have hpos : (⟨String.utf8Len d2 + c0.utf8Size⟩ : String.Pos) ≠ 0 := by
    simp [String.Pos.ext_iff]
    have := Char.utf8Size_pos c0
    omega
  simp +decide [parseNumber, hws, peekC, htd, hta, stodModel, String.isEmpty,
    String.length, digitsVal, hpos]

/-- A digit run whose value exceeds `INT_MAX`, alone in the input: `stoi`
throws `out_of_range`, so no `Int` value is produced. -/
theorem parseNumber_overflow (d : List Char) (pos : Nat) (hne : d ≠ [])
    (hd : ∀ c ∈ d, isDigitC c = true)
    (hv : (2147483647 : Int) < digitsVal ⟨d⟩) :
    parseNumber d pos = .error "stoi" := by
  obtain ⟨c, l2, rfl⟩ := List.exists_cons_of_ne_nil hne
  have hws : skipWs (c :: l2) pos = (c :: l2, pos) :=
    skipWs_cons_not_ws _ _ _ (isWsChar_of_isDigitC c (hd c (by simp)))
  have hta := takeDigits_all (c :: l2) pos "" hd
  have hcm := digit_ne_minus c (hd c (by simp))
  simp +decide [parseNumber, hws, peekC, hta, hcm, stoiModel, String.isEmpty, hv,
    le_of_lt hv]

/-!  Structure of accepted selection sets, for the claim about empty
selection lists. -/

theorem skipWs_head_not_ws (l : List Char) (pos : Nat) (c : Char) (rest2 : List Char)
    (h : (skipWs l pos).1 = c :: rest2) : isWsChar c = false := by
  induction l generalizing pos with
  | nil => simp [skipWs] at h
  | cons c0 rest ih =>
    by_cases hw : isWsChar c0 = true
    · rw [skipWs, if_pos hw] at h
      exact ih (pos + 1) h
    · rw [skipWs, if_neg hw] at h
      cases h
      simpa using hw

theorem skipWs_of_output (l : List Char) (pos : Nat) :
    skipWs (skipWs l pos).1 (skipWs l pos).2 = skipWs l pos := by
  rcases hout : skipWs l pos with ⟨l', p'⟩
  cases l' with
  | nil => simp [skipWs]
  | cons c rest2 =>
    have := skipWs_head_not_ws l pos c rest2 (by simp [hout])
    simp [skipWs, this]

/-- The selection-set loop only extends its accumulator, and returns it
unchanged only when it stopped at once on `}` or the end of input. -/
theorem parseSelItemsF_acc (fuel : Nat) (l : List Char) (pos : Nat)
    (acc res : List FieldSelection) (l' : List Char) (p' : Nat)
    (h : parseSelItemsF fuel l pos acc = .ok (res, l', p')) :
    (∃ suffix, res = acc ++ suffix) ∧
      (res = acc → (peekC l = '}' ∨ peekC l = '\x00') ∧ l' = l ∧ p' = pos) := by
  induction fuel generalizing l pos acc with
  | zero => simp [parseSelItemsF] at h
  | succ fuel ih =>
    rw [parseSelItemsF] at h
    by_cases hstop : (peekC l = '}' || peekC l = '\x00') = true
    · rw [if_pos hstop] at h
      obtain ⟨rfl, rfl, rfl⟩ : res = acc ∧ l' = l ∧ p' = pos := by
        cases h
        exact ⟨rfl, rfl, rfl⟩
      refine ⟨⟨[], by simp⟩, fun _ => ⟨by simpa using hstop, rfl, rfl⟩⟩
    · rw [if_neg hstop] at h
      rcases hf : parseFieldF fuel l pos with e | ⟨f, l1, p1⟩
      · rw [hf] at h
        simp [Bind.bind, Except.bind] at h
      · rw [hf] at h
        simp only [Bind.bind, Except.bind] at h
        obtain ⟨⟨suffix, hsuf⟩, _⟩ :=
          ih (skipWs l1 p1).1 (skipWs l1 p1).2 (acc ++ [f]) h
        refine ⟨⟨[f] ++ suffix, by simp [hsuf]⟩, fun hres => ?_⟩
        exfalso
        rw [hres] at hsuf
        have := congrArg List.length hsuf
        simp at this

/-- An accepted selection set that produced no selections is the explicitly
empty one: the first significant character after its `{` is `}`. -/
theorem parseSelectionSetF_empty (fuel : Nat) (l l' : List Char) (pos p' : Nat)
    (h : parseSelectionSetF fuel l pos = .ok ([], l', p')) :
    ∃ l1 p1, expectC '{' l pos = .ok (l1, p1) ∧ peekC (skipWs l1 p1).1 = '}' := by
  cases fuel with
  | zero => simp [parseSelectionSetF] at h
  | succ fuel =>
    rw [parseSelectionSetF] at h
    simp only [Bind.bind, Except.bind, liftE] at h
    rcases he : expectC '{' l pos with e | ⟨l1, p1⟩
    · rw [he] at h
      simp at h
    · rw [he] at h
      simp only at h
      rcases hi : parseSelItemsF fuel (skipWs l1 p1).1 (skipWs l1 p1).2 [] with
        e | ⟨sels, l3, p3⟩
      · rw [hi] at h
        simp at h
      · rw [hi] at h
        simp only at h
        rcases hc : expectC '}' l3 p3 with e | ⟨l4, p4⟩
        · rw [hc] at h
          simp at h
        · rw [hc] at h
          simp only at h
          obtain ⟨hsels, _, _⟩ : sels = [] ∧ l4 = l' ∧ p4 = p' := by
            cases h
            exact ⟨rfl, rfl, rfl⟩
          subst hsels
          obtain ⟨_, himp⟩ := parseSelItemsF_acc fuel _ _ [] [] l3 p3 hi
          obtain ⟨hpk, hl3, hp3⟩ := himp rfl
          refine ⟨l1, p1, rfl, ?_⟩
          rcases hpk with hpk | hpk
          · exact hpk
          · exfalso
            rw [hl3, hp3, expectC, skipWs_of_output] at hc
            rcases hsw : skipWs l1 p1 with ⟨ls, ps⟩
            rw [hsw] at hc hpk
            cases ls with
            | nil => simp at hc
            | cons c0 r0 =>
              simp only [peekC, List.headD] at hpk
              rw [hpk] at hc
              simp at hc

/-- Every accepted document's selection list is the result of a
`parseSelectionSet` run: `parse` always ends in one. -/
theorem parse_ok_selectionSet (s : String) (q : ParsedQuery) (h : parse s = .ok q) :
    ∃ fuel l pos l' p', parseSelectionSetF fuel l pos = .ok (q.selections, l', p') := by
  rw [parse] at h
  rcases hd : parseDocumentF (parseFuel s) s.toList 0 with e | ⟨q0, l0, p0⟩
  · rw [hd] at h
    rcases e <;> simp at h
  · rw [hd] at h
    simp only at h
    cases h
    rw [parseDocumentF] at hd
    repeat' split at hd
    all_goals try (exfalso; exact Except.noConfusion hd)
    all_goals cases hd
    all_goals exact ⟨_, _, _, _, _, by assumption⟩

/-!  Input-consumption lemmas for the scanner helpers: every successful
token read leaves a strictly shorter remaining input, the measure behind the
fuel-sufficiency theorem `parseDocumentF_no_fuel` below. -/

theorem skipWs_le (l : List Char) (pos : Nat) : (skipWs l pos).1.length ≤ l.length := by
  induction l generalizing pos with
  | nil => simp [skipWs]
  | cons c rest ih =>
    by_cases hw : isWsChar c = true
    · rw [skipWs, if_pos hw]
      exact le_trans (ih (pos + 1)) (by simp)
    · rw [skipWs, if_neg hw]

theorem expectC_len (c : Char) (l l' : List Char) (pos p' : Nat)
    (h : expectC c l pos = .ok (l', p')) : l'.length < l.length := by
  rw [expectC] at h
  rcases hsw : skipWs l pos with ⟨l1, p1⟩
  rw [hsw] at h
  simp only at h
  cases l1 with
  | nil => simp at h
  | cons ch rest =>
    simp only at h
    by_cases hc : ch = c
    · rw [if_pos hc] at h
      cases h
      have := skipWs_le l pos
      rw [hsw] at this
      simp at this
      omega
    · rw [if_neg hc] at h
      simp at h

theorem takeIdent_le (l : List Char) (pos : Nat) (acc : String) :
    (takeIdent l pos acc).2.1.length ≤ l.length := by
  induction l generalizing pos acc with
  | nil => simp [takeIdent]
  | cons c rest ih =>
    by_cases hc : isIdentChar c = true
    · rw [takeIdent, if_pos hc]
      exact le_trans (ih (pos + 1) (acc.push c)) (by simp)
    · rw [takeIdent, if_neg hc]

theorem takeIdent_ne_acc (l : List Char) (pos : Nat) (acc : String)
    (h : (takeIdent l pos acc).1 ≠ acc) : (takeIdent l pos acc).2.1.length < l.length := by
  cases l with
  | nil => simp [takeIdent] at h
  | cons c rest =>
    by_cases hc : isIdentChar c = true
    · rw [takeIdent, if_pos hc]
      exact lt_of_le_of_lt (takeIdent_le rest (pos + 1) (acc.push c)) (by simp)
    · rw [takeIdent, if_neg hc] at h
      simp at h

theorem parseIdentifier_len (l l' : List Char) (pos p' : Nat) (w : String)
    (h : parseIdentifier l pos = .ok (w, l', p')) : l'.length < l.length := by
  rw [parseIdentifier] at h
  rcases hsw : skipWs l pos with ⟨l1, p1⟩
  rw [hsw] at h
  simp only at h
  rcases hti : takeIdent l1 p1 "" with ⟨w0, l2, p2⟩
  rw [hti] at h
  simp only at h
  by_cases he : w0.isEmpty = true
  · rw [if_pos he] at h
    simp at h
  · rw [if_neg he] at h
    cases h
    have hne : (takeIdent l1 p1 "").1 ≠ "" := by
      rw [hti]
      intro hcon
      simp only at hcon
      rw [hcon] at he
      simp [String.isEmpty] at he
    have h1 := takeIdent_ne_acc l1 p1 "" hne
    rw [hti] at h1
    have h2 := skipWs_le l pos
    rw [hsw] at h2
    simp at h1 h2 ⊢
    omega

theorem takeDigits_le (l : List Char) (pos : Nat) (acc : String) :
    (takeDigits l pos acc).2.1.length ≤ l.length := by
  induction l generalizing pos acc with
  | nil => simp [takeDigits]
  | cons c rest ih =>
    by_cases hc : isDigitC c = true
    · rw [takeDigits, if_pos hc]
      exact le_trans (ih (pos + 1) (acc.push c)) (by simp)
    · rw [takeDigits, if_neg hc]

theorem takeDigits_ne_acc (l : List Char) (pos : Nat) (acc : String)
    (h : (takeDigits l pos acc).1 ≠ acc) : (takeDigits l pos acc).2.1.length < l.length := by
  cases l with
  | nil => simp [takeDigits] at h
  | cons c rest =>
    by_cases hc : isDigitC c = true
    · rw [takeDigits, if_pos hc]
      exact lt_of_le_of_lt (takeDigits_le rest (pos + 1) (acc.push c)) (by simp)
    · rw [takeDigits, if_neg hc] at h
      simp at h

theorem parseStringAux_le_aux : ∀ (n : Nat) (l : List Char), l.length ≤ n →
    ∀ (pos : Nat) (acc : String), (parseStringAux l pos acc).2.1.length ≤ l.length := by
  intro n
  induction n with
  | zero =>
    intro l hl pos acc
    rw [List.length_eq_zero.mp (Nat.le_zero.mp hl)]
    simp [parseStringAux]
  | succ n ih =>
    intro l hl pos acc
    cases l with
    | nil => simp [parseStringAux]
    | cons c rest =>
      rw [parseStringAux.eq_def]
      simp only
      by_cases hq : c = '"'
      · rw [if_pos hq]
      · rw [if_neg hq]
        by_cases hb : c = '\\'
        · rw [if_pos hb]
          cases rest with
          | nil => simp
          | cons e rest2 =>
            have h3 := ih rest2 (by simp at hl; omega) (pos + 2) (acc.push (escMap e))
            simp only
            calc (parseStringAux rest2 (pos + 2) (acc.push (escMap e))).2.1.length
                ≤ rest2.length := h3
              _ ≤ (c :: e :: rest2).length := by simp; omega
        · rw [if_neg hb]
          have h3 := ih rest (by simp at hl; omega) (pos + 1) (acc.push c)
          exact le_trans h3 (by simp)

theorem parseStringAux_le (l : List Char) (pos : Nat) (acc : String) :
    (parseStringAux l pos acc).2.1.length ≤ l.length :=
  parseStringAux_le_aux l.length l (le_refl _) pos acc

theorem parseString_len (l l' : List Char) (pos p' : Nat) (w : String)
    (h : parseString l pos = .ok (w, l', p')) : l'.length < l.length := by
  rw [parseString] at h
  simp only [Bind.bind, Except.bind] at h
  rcases h1 : expectC '"' l pos with e | ⟨l1, p1⟩
  · rw [h1] at h
    simp at h
  · rw [h1] at h
    simp only at h
    rcases h2 : parseStringAux l1 p1 "" with ⟨w0, l2, p2⟩
    rw [h2] at h
    simp only at h
    rcases h3 : expectC '"' l2 p2 with e | ⟨l3, p3⟩
    · rw [h3] at h
      simp at h
    · rw [h3] at h
      cases h
      have e1 := expectC_len _ _ _ _ _ h1
      have e2 := parseStringAux_le l1 p1 ""
      rw [h2] at e2
      have e3 := expectC_len _ _ _ _ _ h3
      simp at e2
      simp only
      omega

theorem parseNumber_len (l l' : List Char) (pos p' : Nat) (v : Json)
    (h : parseNumber l pos = .ok (v, l', p')) : l'.length < l.length := by
  rw [parseNumber] at h
  rcases hsw : skipWs l pos with ⟨l1, p1⟩
  rw [hsw] at h
  simp only at h
  have hle1 : l1.length ≤ l.length := by
    have := skipWs_le l pos
    rw [hsw] at this
    simpa using this
  by_cases hminus : peekC l1 = '-'
  · rw [if_pos hminus] at h
    simp only at h
    have hl1 : l1 ≠ [] := by
      intro hc
      rw [hc] at hminus
      simp [peekC] at hminus
    have htail : l1.tail.length < l1.length := by
      cases l1 with
      | nil => exact absurd rfl hl1
      | cons a b => simp
    rcases htd : takeDigits l1.tail (p1 + 1) "" with ⟨ds, l3, p3⟩
    rw [htd] at h
    simp only at h
    have hle3 : l3.length ≤ l1.tail.length := by
      have := takeDigits_le l1.tail (p1 + 1) ""
      rw [htd] at this
      simpa using this
    by_cases hdot : peekC l3 = '.'
    · rw [if_pos hdot] at h
      rcases htd2 : takeDigits l3.tail (p3 + 1) "" with ⟨fs, l4, p4⟩
      rw [htd2] at h
      simp only at h
      have hl3 : l3 ≠ [] := by
        intro hc
        rw [hc] at hdot
        simp [peekC] at hdot
      have htail3 : l3.tail.length < l3.length := by
        cases l3 with
        | nil => exact absurd rfl hl3
        | cons a b => simp
      have hle4 : l4.length ≤ l3.tail.length := by
        have := takeDigits_le l3.tail (p3 + 1) ""
        rw [htd2] at this
        simpa using this
      rcases hsd : stodModel true ds fs with e | q
      · rw [hsd] at h
        simp at h
      · rw [hsd] at h
        cases h
        omega
    · rw [if_neg hdot] at h
      rcases hsi : stoiModel true ds with e | n
      · rw [hsi] at h
        simp at h
      · rw [hsi] at h
        cases h
        omega
  · rw [if_neg hminus] at h
    simp only at h
    rcases htd : takeDigits l1 p1 "" with ⟨ds, l3, p3⟩
    rw [htd] at h
    simp only at h
    have hle3 : l3.length ≤ l1.length := by
      have := takeDigits_le l1 p1 ""
      rw [htd] at this
      simpa using this
    by_cases hdot : peekC l3 = '.'
    · rw [if_pos hdot] at h
      rcases htd2 : takeDigits l3.tail (p3 + 1) "" with ⟨fs, l4, p4⟩
      rw [htd2] at h
      simp only at h
      have hl3 : l3 ≠ [] := by
        intro hc
        rw [hc] at hdot
        simp [peekC] at hdot
      have htail3 : l3.tail.length < l3.length := by
        cases l3 with
        | nil => exact absurd rfl hl3
        | cons a b => simp
      have hle4 : l4.length ≤ l3.tail.length := by
        have := takeDigits_le l3.tail (p3 + 1) ""
        rw [htd2] at this
        simpa using this
      rcases hsd : stodModel false ds fs with e | q
      · rw [hsd] at h
        simp at h
      · rw [hsd] at h
        cases h
        omega
    · rw [if_neg hdot] at h
      rcases hsi : stoiModel false ds with e | n
      · rw [hsi] at h
        simp at h
      · rw [hsi] at h
        cases h
        have hds : ds ≠ "" := by
          intro hc
          rw [hc] at hsi
          simp [stoiModel, String.isEmpty] at hsi
        have hne : (takeDigits l1 p1 "").1 ≠ "" := by
          rw [htd]
          exact hds
        have := takeDigits_ne_acc l1 p1 "" hne
        rw [htd] at this
        simp at this
        omega

theorem parseBool_len (l l' : List Char) (pos p' : Nat) (v : Json)
    (h : parseBool l pos = .ok (v, l', p')) : l'.length < l.length := by
  rw [parseBool] at h
  simp only [Bind.bind, Except.bind] at h
  rcases h1 : parseIdentifier l pos with e | ⟨w, l1, p1⟩
  · rw [h1] at h
    simp at h
  · rw [h1] at h
    cases h
    exact parseIdentifier_len _ _ _ _ _ h1

theorem parseNull_len (l l' : List Char) (pos p' : Nat) (v : Json)
    (h : parseNull l pos = .ok (v, l', p')) : l'.length < l.length := by
  rw [parseNull] at h
  simp only [Bind.bind, Except.bind] at h
  rcases h1 : parseIdentifier l pos with e | ⟨w, l1, p1⟩
  · rw [h1] at h
    simp at h
  · rw [h1] at h
    cases h
    exact parseIdentifier_len _ _ _ _ _ h1

theorem skipBalancedAux_le (oc cc : Char) :
    ∀ (l : List Char) (pos depth : Nat), (skipBalancedAux oc cc l pos depth).1.length ≤ l.length := by
  intro l
  induction l with
  | nil =>
    intro pos depth
    cases depth <;> simp [skipBalancedAux]
  | cons c rest ih =>
    intro pos depth
    cases depth with
    | zero => simp [skipBalancedAux]
    | succ d =>
      rw [skipBalancedAux]
      exact le_trans (ih _ _) (by simp)

theorem skipBalanced_len (oc cc : Char) (l l' : List Char) (pos p' : Nat)
    (h : skipBalanced oc cc l pos = .ok (l', p')) : l'.length < l.length := by
  rw [skipBalanced] at h
  simp only [Bind.bind, Except.bind] at h
  rcases h1 : expectC oc l pos with e | ⟨l1, p1⟩
  · rw [h1] at h
    simp at h
  · rw [h1] at h
    simp only at h
    injection h with h2
    have hs := skipBalancedAux_le oc cc l1 p1 1
    rw [h2] at hs
    simp only at hs
    have h3 := expectC_len _ _ _ _ _ h1
    omega

/-!  Fuel sufficiency.  The mutual grammar productions spend one unit of
fuel per call while every successful token read strictly shortens the
remaining input, so a fuel budget linear in the input length can never run
out; `parseDocumentF_no_fuel` below makes this precise for the budget
`parseFuel` that `parse` supplies. -/

theorem liftE_ne_fuel (x : Except String α) : liftE x ≠ Except.error PErr.fuel := by
  cases x <;> simp [liftE]

theorem valueF_consumes : ∀ (fuel : Nat),
    (∀ l pos v l' p', parseValueF fuel l pos = .ok (v, l', p') → l'.length < l.length) ∧
    (∀ l pos v l' p', parseObjectValueF fuel l pos = .ok (v, l', p') → l'.length < l.length) ∧
    (∀ l pos acc r l' p', parseObjectEntriesF fuel l pos acc = .ok (r, l', p') →
      l'.length ≤ l.length) ∧
    (∀ l pos v l' p', parseArrayValueF fuel l pos = .ok (v, l', p') → l'.length < l.length) ∧
    (∀ l pos acc r l' p', parseArrayItemsF fuel l pos acc = .ok (r, l', p') →
      l'.length ≤ l.length) := by
  intro fuel
  induction fuel with
  | zero =>
    refine ⟨?_, ?_, ?_, ?_, ?_⟩
    · intro l pos v l' p' h; simp [parseValueF] at h
    · intro l pos v l' p' h; simp [parseObjectValueF] at h
    · intro l pos acc r l' p' h; simp [parseObjectEntriesF] at h
    · intro l pos v l' p' h; simp [parseArrayValueF] at h
    · intro l pos acc r l' p' h; simp [parseArrayItemsF] at h
  | succ fuel ih =>
    obtain ⟨ihV, ihO, ihE, ihA, ihI⟩ := ih
    refine ⟨?_, ?_, ?_, ?_, ?_⟩
    · intro l pos v l' p' h
      rw [parseValueF] at h
      rcases hsw : skipWs l pos with ⟨l1, p1⟩
      rw [hsw] at h
      simp only at h
      have hl1 : l1.length ≤ l.length := by
        have := skipWs_le l pos
        rw [hsw] at this
        simpa using this
      split at h
      · rcases hps : parseString l1 p1 with e | ⟨w, l2, p2⟩
        · rw [hps] at h
          simp [liftE, Except.map] at h
        · rw [hps] at h
          simp only [Except.map, liftE] at h
          cases h
          have := parseString_len _ _ _ _ _ hps
          omega
      · split at h
        · rcases hpn : parseNumber l1 p1 with e | ⟨v0, l2, p2⟩
          · rw [hpn] at h
            simp [liftE] at h
          · rw [hpn] at h
            simp only [liftE] at h
            cases h
            have := parseNumber_len _ _ _ _ _ hpn
            omega
        · split at h
          · rcases hpb : parseBool l1 p1 with e | ⟨v0, l2, p2⟩
            · rw [hpb] at h
              simp [liftE] at h
            · rw [hpb] at h
              simp only [liftE] at h
              cases h
              have := parseBool_len _ _ _ _ _ hpb
              omega
          · split at h
            · rcases hpn : parseNull l1 p1 with e | ⟨v0, l2, p2⟩
              · rw [hpn] at h
                simp [liftE] at h
              · rw [hpn] at h
                simp only [liftE] at h
                cases h
                have := parseNull_len _ _ _ _ _ hpn
                omega
            · split at h
              · have := ihO _ _ _ _ _ h
                omega
              · split at h
                · have := ihA _ _ _ _ _ h
                  omega
                · rcases hpi : parseIdentifier l1 p1 with e | ⟨w, l2, p2⟩
                  · rw [hpi] at h
                    simp [liftE, Except.map] at h
                  · rw [hpi] at h
                    simp only [Except.map, liftE] at h
                    cases h
                    have := parseIdentifier_len _ _ _ _ _ hpi
                    omega
    · intro l pos v l' p' h
      rw [parseObjectValueF] at h
      simp only [Bind.bind, Except.bind, liftE] at h
      rcases he : expectC '{' l pos with e | ⟨l1, p1⟩
      · rw [he] at h
        simp at h
      · rw [he] at h
        simp only at h
        rcases hent : parseObjectEntriesF fuel l1 p1 [] with e | ⟨ents, l2, p2⟩
        · rw [hent] at h
          simp at h
        · rw [hent] at h
          simp only at h
          rcases hc : expectC '}' l2 p2 with e | ⟨l3, p3⟩
          · rw [hc] at h
            simp at h
          · rw [hc] at h
            simp only at h
            cases h
            have h1 := expectC_len _ _ _ _ _ he
            have h2 := ihE _ _ _ _ _ _ hent
            have h3 := expectC_len _ _ _ _ _ hc
            omega
    · intro l pos acc r l' p' h
      rw [parseObjectEntriesF] at h
      rcases hsw : skipWs l pos with ⟨l1, p1⟩
      rw [hsw] at h
      simp only at h
      have hl1 : l1.length ≤ l.length := by
        have := skipWs_le l pos
        rw [hsw] at this
        simpa using this
      split at h
      · cases h
        exact hl1
      · simp only [Bind.bind, Except.bind, liftE] at h
        rcases hid : parseIdentifier l1 p1 with e | ⟨key, l2, p2⟩
        · rw [hid] at h
          simp at h
        · rw [hid] at h
          simp only at h
          rcases hc : expectC ':' l2 p2 with e | ⟨l3, p3⟩
          · rw [hc] at h
            simp at h
          · rw [hc] at h
            simp only at h
            rcases hv : parseValueF fuel l3 p3 with e | ⟨v0, l4, p4⟩
            · rw [hv] at h
              simp at h
            · rw [hv] at h
              simp only at h
              have h1 := parseIdentifier_len _ _ _ _ _ hid
              have h2 := expectC_len _ _ _ _ _ hc
              have h3 := ihV _ _ _ _ _ hv
              have h4 := ihE _ _ _ _ _ _ h
              omega
    · intro l pos v l' p' h
      rw [parseArrayValueF] at h
      simp only [Bind.bind, Except.bind, liftE] at h
      rcases he : expectC '[' l pos with e | ⟨l1, p1⟩
      · rw [he] at h
        simp at h
      · rw [he] at h
        simp only at h
        rcases hits : parseArrayItemsF fuel l1 p1 [] with e | ⟨its, l2, p2⟩
        · rw [hits] at h
          simp at h
        · rw [hits] at h
          simp only at h
          rcases hc : expectC ']' l2 p2 with e | ⟨l3, p3⟩
          · rw [hc] at h
            simp at h
          · rw [hc] at h
            simp only at h
            cases h
            have h1 := expectC_len _ _ _ _ _ he
            have h2 := ihI _ _ _ _ _ _ hits
            have h3 := expectC_len _ _ _ _ _ hc
            omega
    · intro l pos acc r l' p' h
      rw [parseArrayItemsF] at h
      rcases hsw : skipWs l pos with ⟨l1, p1⟩
      rw [hsw] at h
      simp only at h
      have hl1 : l1.length ≤ l.length := by
        have := skipWs_le l pos
        rw [hsw] at this
        simpa using this
      split at h
      · cases h
        exact hl1
      · simp only [Bind.bind, Except.bind] at h
        rcases hv : parseValueF fuel l1 p1 with e | ⟨v0, l2, p2⟩
        · rw [hv] at h
          simp at h
        · rw [hv] at h
          simp only at h
          have h1 := ihV _ _ _ _ _ hv
          have h2 := ihI _ _ _ _ _ _ h
          omega

theorem valueF_no_fuel : ∀ (fuel : Nat),
    (∀ l pos, 3 * l.length + 3 ≤ fuel → parseValueF fuel l pos ≠ .error .fuel) ∧
    (∀ l pos, 3 * l.length + 2 ≤ fuel → parseObjectValueF fuel l pos ≠ .error .fuel) ∧
    (∀ l pos acc, 3 * l.length + 1 ≤ fuel →
      parseObjectEntriesF fuel l pos acc ≠ .error .fuel) ∧
    (∀ l pos, 3 * l.length + 2 ≤ fuel → parseArrayValueF fuel l pos ≠ .error .fuel) ∧
    (∀ l pos acc, 3 * l.length + 4 ≤ fuel →
      parseArrayItemsF fuel l pos acc ≠ .error .fuel) := by
  intro fuel
  induction fuel with
  | zero =>
    refine ⟨?_, ?_, ?_, ?_, ?_⟩
    · intro l pos hle
      omega
    · intro l pos hle
      omega
    · intro l pos acc hle
      omega
    · intro l pos hle
      omega
    · intro l pos acc hle
      omega
  | succ fuel ih =>
    obtain ⟨ihV, ihO, ihE, ihA, ihI⟩ := ih
    refine ⟨?_, ?_, ?_, ?_, ?_⟩
    · intro l pos hle h
      rw [parseValueF] at h
      rcases hsw : skipWs l pos with ⟨l1, p1⟩
      rw [hsw] at h
      simp only at h
      have hl1 : l1.length ≤ l.length := by
        have := skipWs_le l pos
        rw [hsw] at this
        simpa using this
      split at h
      · exact liftE_ne_fuel _ h
      · split at h
        · exact liftE_ne_fuel _ h
        · split at h
          · exact liftE_ne_fuel _ h
          · split at h
            · exact liftE_ne_fuel _ h
            · split at h
              · exact ihO l1 p1 (by omega) h
              · split at h
                · exact ihA l1 p1 (by omega) h
                · exact liftE_ne_fuel _ h
    · intro l pos hle h
      rw [parseObjectValueF] at h
      simp only [Bind.bind, Except.bind, liftE] at h
      rcases he : expectC '{' l pos with e | ⟨l1, p1⟩
      · rw [he] at h
        simp at h
      · rw [he] at h
        simp only at h
        have h1 := expectC_len _ _ _ _ _ he
        rcases hent : parseObjectEntriesF fuel l1 p1 [] with e | ⟨ents, l2, p2⟩
        · rw [hent] at h
          simp only at h
          injection h with h2
          subst h2
          exact ihE l1 p1 [] (by omega) hent
        · rw [hent] at h
          simp only at h
          rcases hc : expectC '}' l2 p2 with e | ⟨l3, p3⟩
          · rw [hc] at h
            simp at h
          · rw [hc] at h
            simp at h
    · intro l pos acc hle h
      rw [parseObjectEntriesF] at h
      rcases hsw : skipWs l pos with ⟨l1, p1⟩
      rw [hsw] at h
      simp only at h
      have hl1 : l1.length ≤ l.length := by
        have := skipWs_le l pos
        rw [hsw] at this
        simpa using this
      split at h
      · exact Except.noConfusion h
      · simp only [Bind.bind, Except.bind, liftE] at h
        rcases hid : parseIdentifier l1 p1 with e | ⟨key, l2, p2⟩
        · rw [hid] at h
          simp at h
        · rw [hid] at h
          simp only at h
          have h1 := parseIdentifier_len _ _ _ _ _ hid
          rcases hc : expectC ':' l2 p2 with e | ⟨l3, p3⟩
          · rw [hc] at h
            simp at h
          · rw [hc] at h
            simp only at h
            have h2 := expectC_len _ _ _ _ _ hc
            rcases hv : parseValueF fuel l3 p3 with e | ⟨v0, l4, p4⟩
            · rw [hv] at h
              simp only at h
              injection h with h3
              subst h3
              exact ihV l3 p3 (by omega) hv
            · rw [hv] at h
              simp only at h
              have h3 := (valueF_consumes fuel).1 _ _ _ _ _ hv
              exact ihE l4 p4 _ (by omega) h
    · intro l pos hle h
      rw [parseArrayValueF] at h
      simp only [Bind.bind, Except.bind, liftE] at h
      rcases he : expectC '[' l pos with e | ⟨l1, p1⟩
      · rw [he] at h
        simp at h
      · rw [he] at h
        simp only at h
        have h1 := expectC_len _ _ _ _ _ he
        rcases hits : parseArrayItemsF fuel l1 p1 [] with e | ⟨its, l2, p2⟩
        · rw [hits] at h
          simp only at h
          injection h with h2
          subst h2
          exact ihI l1 p1 [] (by omega) hits
        · rw [hits] at h
          simp only at h
          rcases hc : expectC ']' l2 p2 with e | ⟨l3, p3⟩
          · rw [hc] at h
            simp at h
          · rw [hc] at h
            simp at h
    · intro l pos acc hle h
      rw [parseArrayItemsF] at h
      rcases hsw : skipWs l pos with ⟨l1, p1⟩
      rw [hsw] at h
      simp only at h
      have hl1 : l1.length ≤ l.length := by
        have := skipWs_le l pos
        rw [hsw] at this
        simpa using this
      split at h
      · exact Except.noConfusion h
      · simp only [Bind.bind, Except.bind] at h
        rcases hv : parseValueF fuel l1 p1 with e | ⟨v0, l2, p2⟩
        · rw [hv] at h
          simp only at h
          injection h with h2
          subst h2
          exact ihV l1 p1 (by omega) hv
        · rw [hv] at h
          simp only at h
          have h1 := (valueF_consumes fuel).1 _ _ _ _ _ hv
          exact ihI l2 p2 _ (by omega) h

theorem parseArgsEntriesF_consumes : ∀ (fuel : Nat) (l : List Char) (pos : Nat)
    (acc : List (String × Json)) (r : List (String × Json)) (l' : List Char) (p' : Nat),
    parseArgsEntriesF fuel l pos acc = .ok (r, l', p') → l'.length ≤ l.length := by
  intro fuel
  induction fuel with
  | zero =>
    intro l pos acc r l' p' h
    simp [parseArgsEntriesF] at h
  | succ fuel ih =>
    intro l pos acc r l' p' h
    rw [parseArgsEntriesF] at h
    rcases hsw : skipWs l pos with ⟨l1, p1⟩
    rw [hsw] at h
    simp only at h
    have hl1 : l1.length ≤ l.length := by
      have := skipWs_le l pos
      rw [hsw] at this
      simpa using this
    split at h
    · cases h
      exact hl1
    · simp only [Bind.bind, Except.bind, liftE] at h
      rcases hid : parseIdentifier l1 p1 with e | ⟨key, l2, p2⟩
      · rw [hid] at h
        simp at h
      · rw [hid] at h
        simp only at h
        rcases hc : expectC ':' l2 p2 with e | ⟨l3, p3⟩
        · rw [hc] at h
          simp at h
        · rw [hc] at h
          simp only at h
          rcases hv : parseValueF fuel l3 p3 with e | ⟨v0, l4, p4⟩
          · rw [hv] at h
            simp at h
          · rw [hv] at h
            simp only at h
            have h1 := parseIdentifier_len _ _ _ _ _ hid
            have h2 := expectC_len _ _ _ _ _ hc
            have h3 := (valueF_consumes fuel).1 _ _ _ _ _ hv
            have h4 := ih _ _ _ _ _ _ h
            omega

theorem parseArgsEntriesF_no_fuel : ∀ (fuel : Nat) (l : List Char) (pos : Nat)
    (acc : List (String × Json)), 3 * l.length + 1 ≤ fuel →
    parseArgsEntriesF fuel l pos acc ≠ .error .fuel := by
  intro fuel
  induction fuel with
  | zero =>
    intro l pos acc hle
    omega
  | succ fuel ih =>
    intro l pos acc hle h
    rw [parseArgsEntriesF] at h
    rcases hsw : skipWs l pos with ⟨l1, p1⟩
    rw [hsw] at h
    simp only at h
    have hl1 : l1.length ≤ l.length := by
      have := skipWs_le l pos
      rw [hsw] at this
      simpa using this
    split at h
    · exact Except.noConfusion h
    · simp only [Bind.bind, Except.bind, liftE] at h
      rcases hid : parseIdentifier l1 p1 with e | ⟨key, l2, p2⟩
      · rw [hid] at h
        simp at h
      · rw [hid] at h
        simp only at h
        have h1 := parseIdentifier_len _ _ _ _ _ hid
        rcases hc : expectC ':' l2 p2 with e | ⟨l3, p3⟩
        · rw [hc] at h
          simp at h
        · rw [hc] at h
          simp only at h
          have h2 := expectC_len _ _ _ _ _ hc
          rcases hv : parseValueF fuel l3 p3 with e | ⟨v0, l4, p4⟩
          · rw [hv] at h
            simp only at h
            injection h with h3
            subst h3
            exact (valueF_no_fuel fuel).1 l3 p3 (by omega) hv
          · rw [hv] at h
            simp only at h
            have h3 := (valueF_consumes fuel).1 _ _ _ _ _ hv
            exact ih l4 p4 _ (by omega) h

theorem parseArgumentsF_consumes (fuel : Nat) (l : List Char) (pos : Nat)
    (r : List (String × Json)) (l' : List Char) (p' : Nat)
    (h : parseArgumentsF fuel l pos = .ok (r, l', p')) : l'.length < l.length := by
  rw [parseArgumentsF] at h
  simp only [Bind.bind, Except.bind, liftE] at h
  rcases he : expectC '(' l pos with e | ⟨l1, p1⟩
  · rw [he] at h
    simp at h
  · rw [he] at h
    simp only at h
    rcases hent : parseArgsEntriesF fuel l1 p1 [] with e | ⟨args, l2, p2⟩
    · rw [hent] at h
      simp at h
    · rw [hent] at h
      simp only at h
      rcases hc : expectC ')' l2 p2 with e | ⟨l3, p3⟩
      · rw [hc] at h
        simp at h
      · rw [hc] at h
        simp only at h
        cases h
        have h1 := expectC_len _ _ _ _ _ he
        have h2 := parseArgsEntriesF_consumes fuel _ _ _ _ _ _ hent
        have h3 := expectC_len _ _ _ _ _ hc
        omega

theorem parseArgumentsF_no_fuel (fuel : Nat) (l : List Char) (pos : Nat)
    (hle : 3 * l.length + 1 ≤ fuel) : parseArgumentsF fuel l pos ≠ .error .fuel := by
  intro h
  rw [parseArgumentsF] at h
  simp only [Bind.bind, Except.bind, liftE] at h
  rcases he : expectC '(' l pos with e | ⟨l1, p1⟩
  · rw [he] at h
    simp at h
  · rw [he] at h
    simp only at h
    have h1 := expectC_len _ _ _ _ _ he
    rcases hent : parseArgsEntriesF fuel l1 p1 [] with e | ⟨args, l2, p2⟩
    · rw [hent] at h
      simp only at h
      injection h with h2
      subst h2
      exact parseArgsEntriesF_no_fuel fuel l1 p1 [] (by omega) hent
    · rw [hent] at h
      simp only at h
      rcases hc : expectC ')' l2 p2 with e | ⟨l3, p3⟩
      · rw [hc] at h
        simp at h
      · rw [hc] at h
        simp at h

theorem fieldF_consumes : ∀ (fuel : Nat),
    (∀ l pos f l' p', parseFieldF fuel l pos = .ok (f, l', p') → l'.length < l.length) ∧
    (∀ l pos s l' p', parseSelectionSetF fuel l pos = .ok (s, l', p') →
      l'.length < l.length) ∧
    (∀ l pos acc s l' p', parseSelItemsF fuel l pos acc = .ok (s, l', p') →
      l'.length ≤ l.length) := by
  intro fuel
  induction fuel with
  | zero =>
    refine ⟨?_, ?_, ?_⟩
    · intro l pos f l' p' h
      simp [parseFieldF] at h
    · intro l pos s l' p' h
      simp [parseSelectionSetF] at h
    · intro l pos acc s l' p' h
      simp [parseSelItemsF] at h
  | succ fuel ih =>
    obtain ⟨ihF, ihS, ihI⟩ := ih
    refine ⟨?_, ?_, ?_⟩
    · intro l pos f l' p' h
      rw [parseFieldF] at h
      simp only [Bind.bind, Except.bind, liftE, Pure.pure, Except.pure] at h
      rcases hid : parseIdentifier l pos with e | ⟨nm, l1, p1⟩
      · rw [hid] at h
        simp at h
      · rw [hid] at h
        simp only at h
        have h1 := parseIdentifier_len _ _ _ _ _ hid
        rcases hsw : skipWs l1 p1 with ⟨l2, p2⟩
        rw [hsw] at h
        simp only at h
        have h2 : l2.length ≤ l1.length := by
          have := skipWs_le l1 p1
          rw [hsw] at this
          simpa using this
        by_cases hcol : peekC l2 = ':'
        · rw [if_pos hcol] at h
          rcases hid2 : parseIdentifier l2.tail (p2 + 1) with e | ⟨w, l4, p4⟩
          · rw [hid2] at h
            simp at h
          · rw [hid2] at h
            simp only at h
            have h3 := parseIdentifier_len _ _ _ _ _ hid2
            have h3t : l2.tail.length ≤ l2.length := by
              cases l2 <;> simp
            rcases hsw2 : skipWs l4 p4 with ⟨l3, p3⟩
            rw [hsw2] at h
            simp only at h
            have h4 : l3.length ≤ l4.length := by
              have := skipWs_le l4 p4
              rw [hsw2] at this
              simpa using this
            by_cases hpar : peekC l3 = '('
            · rw [if_pos hpar] at h
              rcases harg : parseArgumentsF fuel l3 p3 with e | ⟨args, l6, p6⟩
              · rw [harg] at h
                simp at h
              · rw [harg] at h
                simp only at h
                have hA := parseArgumentsF_consumes fuel _ _ _ _ _ harg
                rcases hsw3 : skipWs l6 p6 with ⟨l7, p7⟩
                rw [hsw3] at h
                simp only at h
                have h7 : l7.length ≤ l6.length := by
                  have := skipWs_le l6 p6
                  rw [hsw3] at this
                  simpa using this
                by_cases hsel : peekC l7 = '{'
                · rw [if_pos hsel] at h
                  rcases hss : parseSelectionSetF fuel l7 p7 with e | ⟨sels, l8, p8⟩
                  · rw [hss] at h
                    simp at h
                  · rw [hss] at h
                    simp only at h
                    cases h
                    have hS := ihS _ _ _ _ _ hss
                    omega
                · rw [if_neg hsel] at h
                  cases h
                  omega
            · rw [if_neg hpar] at h
              rcases hsw3 : skipWs l3 p3 with ⟨l7, p7⟩
              rw [hsw3] at h
              simp only at h
              have h7 : l7.length ≤ l3.length := by
                have := skipWs_le l3 p3
                rw [hsw3] at this
                simpa using this
              by_cases hsel : peekC l7 = '{'
              · rw [if_pos hsel] at h
                rcases hss : parseSelectionSetF fuel l7 p7 with e | ⟨sels, l8, p8⟩
                · rw [hss] at h
                  simp at h
                · rw [hss] at h
                  simp only at h
                  cases h
                  have hS := ihS _ _ _ _ _ hss
                  omega
              · rw [if_neg hsel] at h
                cases h
                omega
        · rw [if_neg hcol] at h
          by_cases hpar : peekC l2 = '('
          · rw [if_pos hpar] at h
            rcases harg : parseArgumentsF fuel l2 p2 with e | ⟨args, l6, p6⟩
            · rw [harg] at h
              simp at h
            · rw [harg] at h
              simp only at h
              have hA := parseArgumentsF_consumes fuel _ _ _ _ _ harg
              rcases hsw3 : skipWs l6 p6 with ⟨l7, p7⟩
              rw [hsw3] at h
              simp only at h
              have h7 : l7.length ≤ l6.length := by
                have := skipWs_le l6 p6
                rw [hsw3] at this
                simpa using this
              by_cases hsel : peekC l7 = '{'
              · rw [if_pos hsel] at h
                rcases hss : parseSelectionSetF fuel l7 p7 with e | ⟨sels, l8, p8⟩
                · rw [hss] at h
                  simp at h
                · rw [hss] at h
                  simp only at h
                  cases h
                  have hS := ihS _ _ _ _ _ hss
                  omega
              · rw [if_neg hsel] at h
                cases h
                omega
          · rw [if_neg hpar] at h
            rcases hsw3 : skipWs l2 p2 with ⟨l7, p7⟩
            rw [hsw3] at h
            simp only at h
            have h7 : l7.length ≤ l2.length := by
              have := skipWs_le l2 p2
              rw [hsw3] at this
              simpa using this
            by_cases hsel : peekC l7 = '{'
            · rw [if_pos hsel] at h
              rcases hss : parseSelectionSetF fuel l7 p7 with e | ⟨sels, l8, p8⟩
              · rw [hss] at h
                simp at h
              · rw [hss] at h
                simp only at h
                cases h
                have hS := ihS _ _ _ _ _ hss
                omega
            · rw [if_neg hsel] at h
              cases h
              omega
    · intro l pos s l' p' h
      rw [parseSelectionSetF] at h
      simp only [Bind.bind, Except.bind, liftE] at h
      rcases he : expectC '{' l pos with e | ⟨l1, p1⟩
      · rw [he] at h
        simp at h
      · rw [he] at h
        simp only at h
        have h1 := expectC_len _ _ _ _ _ he
        rcases hsw : skipWs l1 p1 with ⟨l2, p2⟩
        rw [hsw] at h
        simp only at h
        have h2 : l2.length ≤ l1.length := by
          have := skipWs_le l1 p1
          rw [hsw] at this
          simpa using this
        rcases hit : parseSelItemsF fuel l2 p2 [] with e | ⟨sels, l3, p3⟩
        · rw [hit] at h
          simp at h
        · rw [hit] at h
          simp only at h
          have h3 := ihI _ _ _ _ _ _ hit
          rcases hc : expectC '}' l3 p3 with e | ⟨l4, p4⟩
          · rw [hc] at h
            simp at h
          · rw [hc] at h
            simp only at h
            cases h
            have h4 := expectC_len _ _ _ _ _ hc
            omega
    · intro l pos acc s l' p' h
      rw [parseSelItemsF] at h
      split at h
      · cases h
        exact le_refl _
      · simp only [Bind.bind, Except.bind] at h
        rcases hf : parseFieldF fuel l pos with e | ⟨f0, l1, p1⟩
        · rw [hf] at h
          simp at h
        · rw [hf] at h
          simp only at h
          have h1 := ihF _ _ _ _ _ hf
          rcases hsw : skipWs l1 p1 with ⟨l2, p2⟩
          rw [hsw] at h
          simp only at h
          have h2 : l2.length ≤ l1.length := by
            have := skipWs_le l1 p1
            rw [hsw] at this
            simpa using this
          have h3 := ihI _ _ _ _ _ _ h
          omega

theorem fieldF_no_fuel : ∀ (fuel : Nat),
    (∀ l pos, 3 * l.length + 3 ≤ fuel → parseFieldF fuel l pos ≠ .error .fuel) ∧
    (∀ l pos, 3 * l.length + 2 ≤ fuel → parseSelectionSetF fuel l pos ≠ .error .fuel) ∧
    (∀ l pos acc, 3 * l.length + 4 ≤ fuel →
      parseSelItemsF fuel l pos acc ≠ .error .fuel) := by
  intro fuel
  induction fuel with
  | zero =>
    refine ⟨?_, ?_, ?_⟩
    · intro l pos hle
      omega
    · intro l pos hle
      omega
    · intro l pos acc hle
      omega
  | succ fuel ih =>
    obtain ⟨ihF, ihS, ihI⟩ := ih
    refine ⟨?_, ?_, ?_⟩
    · intro l pos hle h
      rw [parseFieldF] at h
      simp only [Bind.bind, Except.bind, liftE, Pure.pure, Except.pure] at h
      rcases hid : parseIdentifier l pos with e | ⟨nm, l1, p1⟩
      · rw [hid] at h
        simp at h
      · rw [hid] at h
        simp only at h
        have h1 := parseIdentifier_len _ _ _ _ _ hid
        rcases hsw : skipWs l1 p1 with ⟨l2, p2⟩
        rw [hsw] at h
        simp only at h
        have h2 : l2.length ≤ l1.length := by
          have := skipWs_le l1 p1
          rw [hsw] at this
          simpa using this
        by_cases hcol : peekC l2 = ':'
        · rw [if_pos hcol] at h
          rcases hid2 : parseIdentifier l2.tail (p2 + 1) with e | ⟨w, l4, p4⟩
          · rw [hid2] at h
            simp at h
          · rw [hid2] at h
            simp only at h
            have h3 := parseIdentifier_len _ _ _ _ _ hid2
            have h3t : l2.tail.length ≤ l2.length := by
              cases l2 <;> simp
            rcases hsw2 : skipWs l4 p4 with ⟨l3, p3⟩
            rw [hsw2] at h
            simp only at h
            have h4 : l3.length ≤ l4.length := by
              have := skipWs_le l4 p4
              rw [hsw2] at this
              simpa using this
            by_cases hpar : peekC l3 = '('
            · rw [if_pos hpar] at h
              rcases harg : parseArgumentsF fuel l3 p3 with e | ⟨args, l6, p6⟩
              · rw [harg] at h
                simp only at h
                injection h with h5
                subst h5
                exact parseArgumentsF_no_fuel fuel l3 p3 (by omega) harg
              · rw [harg] at h
                simp only at h
                have hA := parseArgumentsF_consumes fuel _ _ _ _ _ harg
                rcases hsw3 : skipWs l6 p6 with ⟨l7, p7⟩
                rw [hsw3] at h
                simp only at h
                have h7 : l7.length ≤ l6.length := by
                  have := skipWs_le l6 p6
                  rw [hsw3] at this
                  simpa using this
                by_cases hsel : peekC l7 = '{'
                · rw [if_pos hsel] at h
                  rcases hss : parseSelectionSetF fuel l7 p7 with e | ⟨sels, l8, p8⟩
                  · rw [hss] at h
                    simp only at h
                    injection h with h5
                    subst h5
                    exact ihS l7 p7 (by omega) hss
                  · rw [hss] at h
                    simp only at h
                    exact Except.noConfusion h
                · rw [if_neg hsel] at h
                  exact Except.noConfusion h
            · rw [if_neg hpar] at h
              rcases hsw3 : skipWs l3 p3 with ⟨l7, p7⟩
              rw [hsw3] at h
              simp only at h
              have h7 : l7.length ≤ l3.length := by
                have := skipWs_le l3 p3
                rw [hsw3] at this
                simpa using this
              by_cases hsel : peekC l7 = '{'
              · rw [if_pos hsel] at h
                rcases hss : parseSelectionSetF fuel l7 p7 with e | ⟨sels, l8, p8⟩
                · rw [hss] at h
                  simp only at h
                  injection h with h5
                  subst h5
                  exact ihS l7 p7 (by omega) hss
                · rw [hss] at h
                  simp only at h
                  exact Except.noConfusion h
              · rw [if_neg hsel] at h
                exact Except.noConfusion h
        · rw [if_neg hcol] at h
          by_cases hpar : peekC l2 = '('
          · rw [if_pos hpar] at h
            rcases harg : parseArgumentsF fuel l2 p2 with e | ⟨args, l6, p6⟩
            · rw [harg] at h
              simp only at h
              injection h with h5
              subst h5
              exact parseArgumentsF_no_fuel fuel l2 p2 (by omega) harg
            · rw [harg] at h
              simp only at h
              have hA := parseArgumentsF_consumes fuel _ _ _ _ _ harg
              rcases hsw3 : skipWs l6 p6 with ⟨l7, p7⟩
              rw [hsw3] at h
              simp only at h
              have h7 : l7.length ≤ l6.length := by
                have := skipWs_le l6 p6
                rw [hsw3] at this
                simpa using this
              by_cases hsel : peekC l7 = '{'
              · rw [if_pos hsel] at h
                rcases hss : parseSelectionSetF fuel l7 p7 with e | ⟨sels, l8, p8⟩
                · rw [hss] at h
                  simp only at h
                  injection h with h5
                  subst h5
                  exact ihS l7 p7 (by omega) hss
                · rw [hss] at h
                  simp only at h
                  exact Except.noConfusion h
              · rw [if_neg hsel] at h
                exact Except.noConfusion h
          · rw [if_neg hpar] at h
            rcases hsw3 : skipWs l2 p2 with ⟨l7, p7⟩
            rw [hsw3] at h
            simp only at h
            have h7 : l7.length ≤ l2.length := by
              have := skipWs_le l2 p2
              rw [hsw3] at this
              simpa using this
            by_cases hsel : peekC l7 = '{'
            · rw [if_pos hsel] at h
              rcases hss : parseSelectionSetF fuel l7 p7 with e | ⟨sels, l8, p8⟩
              · rw [hss] at h
                simp only at h
                injection h with h5
                subst h5
                exact ihS l7 p7 (by omega) hss
              · rw [hss] at h
                simp only at h
                exact Except.noConfusion h
            · rw [if_neg hsel] at h
              exact Except.noConfusion h
    · intro l pos hle h
      rw [parseSelectionSetF] at h
      simp only [Bind.bind, Except.bind, liftE] at h
      rcases he : expectC '{' l pos with e | ⟨l1, p1⟩
      · rw [he] at h
        simp at h
      · rw [he] at h
        simp only at h
        have h1 := expectC_len _ _ _ _ _ he
        rcases hsw : skipWs l1 p1 with ⟨l2, p2⟩
        rw [hsw] at h
        simp only at h
        have h2 : l2.length ≤ l1.length := by
          have := skipWs_le l1 p1
          rw [hsw] at this
          simpa using this
        rcases hit : parseSelItemsF fuel l2 p2 [] with e | ⟨sels, l3, p3⟩
        · rw [hit] at h
          simp only at h
          injection h with h5
          subst h5
          exact ihI l2 p2 [] (by omega) hit
        · rw [hit] at h
          simp only at h
          rcases hc : expectC '}' l3 p3 with e | ⟨l4, p4⟩
          · rw [hc] at h
            simp at h
          · rw [hc] at h
            simp only at h
            exact Except.noConfusion h
    · intro l pos acc hle h
      rw [parseSelItemsF] at h
      split at h
      · exact Except.noConfusion h
      · simp only [Bind.bind, Except.bind] at h
        rcases hf : parseFieldF fuel l pos with e | ⟨f0, l1, p1⟩
        · rw [hf] at h
          simp only at h
          injection h with h5
          subst h5
          exact ihF l pos (by omega) hf
        · rw [hf] at h
          simp only at h
          have h1 := (fieldF_consumes fuel).1 _ _ _ _ _ hf
          rcases hsw : skipWs l1 p1 with ⟨l2, p2⟩
          rw [hsw] at h
          simp only at h
          have h2 : l2.length ≤ l1.length := by
            have := skipWs_le l1 p1
            rw [hsw] at this
            simpa using this
          exact ihI l2 p2 _ (by omega) h

theorem parseDocumentF_fuel_bound (fuel : Nat) (l : List Char) (pos : Nat)
    (hle : 3 * l.length + 2 ≤ fuel) : parseDocumentF fuel l pos ≠ .error .fuel := by
  intro h
  rw [parseDocumentF] at h
  rcases hsw : skipWs l pos with ⟨l1, p1⟩
  rw [hsw] at h
  simp only at h
  have hl1 : l1.length ≤ l.length := by
    have := skipWs_le l pos
    rw [hsw] at this
    simpa using this
  by_cases hbr : peekC l1 = '{'
  · rw [if_pos hbr] at h
    rcases hss : parseSelectionSetF fuel l1 p1 with e | ⟨sels, l2, p2⟩
    · rw [hss] at h
      simp only at h
      injection h with h2
      subst h2
      exact (fieldF_no_fuel fuel).2.1 l1 p1 (by omega) hss
    · rw [hss] at h
      simp only at h
      exact Except.noConfusion h
  · rw [if_neg hbr] at h
    rcases hid : parseIdentifier l1 p1 with e | ⟨kw, l2, p2⟩
    · rw [hid] at h
      simp at h
    · rw [hid] at h
      simp only at h
      have h1 := parseIdentifier_len _ _ _ _ _ hid
      by_cases hkw : (kw = "query" || kw = "mutation") = true
      · rw [if_pos hkw] at h
        rcases hsw2 : skipWs l2 p2 with ⟨l3, p3⟩
        rw [hsw2] at h
        simp only at h
        have hl3 : l3.length ≤ l2.length := by
          have := skipWs_le l2 p2
          rw [hsw2] at this
          simpa using this
        by_cases hop : (peekC l3 != '{' && peekC l3 != '(') = true
        · rw [if_pos hop] at h
          rcases hid2 : parseIdentifier l3 p3 with e | ⟨w, l5, p5⟩
          · rw [hid2] at h
            simp at h
          · rw [hid2] at h
            simp only at h
            have h2b := parseIdentifier_len _ _ _ _ _ hid2
            rcases hsw3 : skipWs l5 p5 with ⟨l6, p6⟩
            rw [hsw3] at h
            simp only at h
            have hl6 : l6.length ≤ l5.length := by
              have := skipWs_le l5 p5
              rw [hsw3] at this
              simpa using this
            by_cases hpar : peekC l6 = '('
            · rw [if_pos hpar] at h
              rcases hsb : skipBalanced '(' ')' l6 p6 with e | ⟨l8, p8⟩
              · rw [hsb] at h
                simp at h
              · rw [hsb] at h
                simp only at h
                have hb8 := skipBalanced_len '(' ')' _ _ _ _ hsb
                rcases hsw4 : skipWs l8 p8 with ⟨l7, p7⟩
                rw [hsw4] at h
                simp only at h
                have hb7 : l7.length ≤ l8.length := by
                  have := skipWs_le l8 p8
                  rw [hsw4] at this
                  simpa using this
                rcases hss : parseSelectionSetF fuel l7 p7 with e | ⟨sels, l9, p9⟩
                · rw [hss] at h
                  simp only at h
                  injection h with h9
                  subst h9
                  exact (fieldF_no_fuel fuel).2.1 l7 p7 (by omega) hss
                · rw [hss] at h
                  simp only at h
                  exact Except.noConfusion h
            · rw [if_neg hpar] at h
              simp only at h
              rcases hss : parseSelectionSetF fuel l6 p6 with e | ⟨sels, l9, p9⟩
              · rw [hss] at h
                simp only at h
                injection h with h9
                subst h9
                exact (fieldF_no_fuel fuel).2.1 l6 p6 (by omega) hss
              · rw [hss] at h
                simp only at h
                exact Except.noConfusion h
        · rw [if_neg hop] at h
          simp only at h
          by_cases hpar : peekC l3 = '('
          · rw [if_pos hpar] at h
            rcases hsb : skipBalanced '(' ')' l3 p3 with e | ⟨l8, p8⟩
            · rw [hsb] at h
              simp at h
            · rw [hsb] at h
              simp only at h
              have hb8 := skipBalanced_len '(' ')' _ _ _ _ hsb
              rcases hsw4 : skipWs l8 p8 with ⟨l7, p7⟩
              rw [hsw4] at h
              simp only at h
              have hb7 : l7.length ≤ l8.length := by
                have := skipWs_le l8 p8
                rw [hsw4] at this
                simpa using this
              rcases hss : parseSelectionSetF fuel l7 p7 with e | ⟨sels, l9, p9⟩
              · rw [hss] at h
                simp only at h
                injection h with h9
                subst h9
                exact (fieldF_no_fuel fuel).2.1 l7 p7 (by omega) hss
              · rw [hss] at h
                simp only at h
                exact Except.noConfusion h
          · rw [if_neg hpar] at h
            simp only at h
            rcases hss : parseSelectionSetF fuel l3 p3 with e | ⟨sels, l9, p9⟩
            · rw [hss] at h
              simp only at h
              injection h with h9
              subst h9
              exact (fieldF_no_fuel fuel).2.1 l3 p3 (by omega) hss
            · rw [hss] at h
              simp only at h
              exact Except.noConfusion h
      · rw [if_neg hkw] at h
        simp at h

theorem parseDocumentF_no_fuel (s : String) :
    parseDocumentF (parseFuel s) s.toList 0 ≠ .error .fuel := by
  apply parseDocumentF_fuel_bound
  have ht : s.toList.length = s.length := rfl
  rw [parseFuel, ht]
  omega

/-- A successful document parse invokes the selection-set production exactly
at the state `docSelInput` computes, and the query's selection list is what
that invocation returned. -/
theorem parseDocumentF_selInput (fuel : Nat) (l : List Char) (pos : Nat)
    (q : ParsedQuery) (l' : List Char) (p' : Nat)
    (h : parseDocumentF fuel l pos = .ok (q, l', p')) :
    ∃ lsel psel, docSelInput l pos = some (lsel, psel) ∧
      parseSelectionSetF fuel lsel psel = .ok (q.selections, l', p') := by
  rw [parseDocumentF] at h
  rcases hsw : skipWs l pos with ⟨l1, p1⟩
  rw [hsw] at h
  simp only at h
  by_cases hbr : peekC l1 = '{'
  · rw [if_pos hbr] at h
    rcases hss : parseSelectionSetF fuel l1 p1 with e | ⟨sels, l2, p2⟩
    · rw [hss] at h
      simp at h
    · rw [hss] at h
      simp only at h
      cases h
      refine ⟨l1, p1, ?_, hss⟩
      rw [docSelInput, hsw]
      simp [hbr]
  · rw [if_neg hbr] at h
    rcases hid : parseIdentifier l1 p1 with e | ⟨kw, l2, p2⟩
    · rw [hid] at h
      simp at h
    · rw [hid] at h
      simp only at h
      by_cases hkw : (kw = "query" || kw = "mutation") = true
      · rw [if_pos hkw] at h
        rcases hsw2 : skipWs l2 p2 with ⟨l3, p3⟩
        rw [hsw2] at h
        simp only at h
        by_cases hop : (peekC l3 != '{' && peekC l3 != '(') = true
        · rw [if_pos hop] at h
          rcases hid2 : parseIdentifier l3 p3 with e | ⟨w, l5, p5⟩
          · rw [hid2] at h
            simp at h
          · rw [hid2] at h
            simp only at h
            rcases hsw3 : skipWs l5 p5 with ⟨l6, p6⟩
            rw [hsw3] at h
            simp only at h
            by_cases hpar : peekC l6 = '('
            · rw [if_pos hpar] at h
              rcases hsb : skipBalanced '(' ')' l6 p6 with e | ⟨l8, p8⟩
              · rw [hsb] at h
                simp at h
              · rw [hsb] at h
                simp only at h
                rcases hsw4 : skipWs l8 p8 with ⟨l7, p7⟩
                rw [hsw4] at h
                simp only at h
                rcases hss : parseSelectionSetF fuel l7 p7 with e | ⟨sels, l9, p9⟩
                · rw [hss] at h
                  simp at h
                · rw [hss] at h
                  simp only at h
                  cases h
                  refine ⟨l7, p7, ?_, hss⟩
                  rw [docSelInput, hsw]
                  simp [hbr, hid, hkw, hsw2, hop, hid2, hsw3, hpar, hsb, hsw4]
            · rw [if_neg hpar] at h
              simp only at h
              rcases hss : parseSelectionSetF fuel l6 p6 with e | ⟨sels, l9, p9⟩
              · rw [hss] at h
                simp at h
              · rw [hss] at h
                simp only at h
                cases h
                refine ⟨l6, p6, ?_, hss⟩
                rw [docSelInput, hsw]
                simp [hbr, hid, hkw, hsw2, hop, hid2, hsw3, hpar]
        · rw [if_neg hop] at h
          simp only at h
          by_cases hpar : peekC l3 = '('
          · rw [if_pos hpar] at h
            rcases hsb : skipBalanced '(' ')' l3 p3 with e | ⟨l8, p8⟩
            · rw [hsb] at h
              simp at h
            · rw [hsb] at h
              simp only at h
              rcases hsw4 : skipWs l8 p8 with ⟨l7, p7⟩
              rw [hsw4] at h
              simp only at h
              rcases hss : parseSelectionSetF fuel l7 p7 with e | ⟨sels, l9, p9⟩
              · rw [hss] at h
                simp at h
              · rw [hss] at h
                simp only at h
                cases h
                refine ⟨l7, p7, ?_, hss⟩
                rw [docSelInput, hsw]
                simp [hbr, hid, hkw, hsw2, hop, hpar, hsb, hsw4]
          · rw [if_neg hpar] at h
            simp only at h
            rcases hss : parseSelectionSetF fuel l3 p3 with e | ⟨sels, l9, p9⟩
            · rw [hss] at h
              simp at h
            · rw [hss] at h
              simp only at h
              cases h
              refine ⟨l3, p3, ?_, hss⟩
              rw [docSelInput, hsw]
              simp [hbr, hid, hkw, hsw2, hop, hpar]
      · rw [if_neg hkw] at h
        simp at h

/-!  Concrete fixtures used by the claim witnesses: a resolver that always
fails, one that returns a string, and small schemas built from them through
the registration calls. -/

/-- A resolver that throws (`throw std::runtime_error("Something went wrong")`). -/
def failingResolver : Resolver := fun _ _ => .error "Something went wrong"

/-- A resolver returning the string `"world"`. -/
def helloResolver : Resolver := fun _ _ => .ok (Json.str "world")

/-- A schema with a working `hello` resolver and a failing `failing` one. -/
def demoSchema : Schema :=
  (Schema.empty.query "hello" helloResolver).query "failing" failingResolver

/-- A schema whose only query field `f` returns the integer 7. -/
def echoSchema : Schema := Schema.empty.query "f" (fun _ _ => .ok (Json.int 7))

/-- A top-level selection fails: its name has no registered resolver, or the
registered resolver reports a failure on the merged arguments and context. -/
def selectionFails (R : String → Option Resolver) (vars : List (String × Json))
    (ctx : Json) (f : FieldSelection) : Prop :=
  match R f.name with
  | none => True
  | some r => ∃ msg, r (Json.obj (mergeArgs f.arguments vars)) ctx = .error msg

/-- C2, counterexample: with the failing field aliased as `f`, the `Null`
write lands under the field's name `failing`, not under the alias `f`, so
the claimed `data[alias-or-name] = Null` is false as stated. -/
theorem c2_counterexample :
    (demoSchema.execute "\x7b f: failing \x7d" [] (Json.obj [])).getKey "data" =
      some (Json.obj [("failing", Json.null)]) ∧
    ((demoSchema.execute "\x7b f: failing \x7d" [] (Json.obj [])).getKey "data").map
      (Json.getKey · "f") = some none := by
  decide

/-- C2, amended: when a top-level field's resolver fails, execute appends an
ExecutionError with the failure text as message and path `[name]`, writes
`Null` into `data` under the field's name (not the alias), and continues
with the next field. -/
theorem c2_resolver_failure (R : String → Option Resolver) (opType : String)
    (vars : List (String × Json)) (ctx : Json) (f : FieldSelection)
    (r : Resolver) (msg : String) (hr : R f.name = some r)
    (hm : r (Json.obj (mergeArgs f.arguments vars)) ctx = .error msg) :
    execField R opType vars ctx f =
      ⟨[⟨f.name, Json.obj (mergeArgs f.arguments vars), ctx⟩],
       some (f.name, Json.null),
       [Json.obj [("message", Json.str msg), ("path", Json.arr [Json.str f.name])]]⟩ ∧
    ∀ rest, execFields R opType vars ctx (f :: rest) =
      ⟨[⟨f.name, Json.obj (mergeArgs f.arguments vars), ctx⟩] ++
         (execFields R opType vars ctx rest).invs,
       [(f.name, Json.null)] ++ (execFields R opType vars ctx rest).writes,
       [Json.obj [("message", Json.str msg), ("path", Json.arr [Json.str f.name])]] ++
         (execFields R opType vars ctx rest).errs⟩ := by
  have hstep : execField R opType vars ctx f =
      ⟨[⟨f.name, Json.obj (mergeArgs f.arguments vars), ctx⟩],
       some (f.name, Json.null),
       [Json.obj [("message", Json.str msg), ("path", Json.arr [Json.str f.name])]]⟩ := by
    simp only [execField, hr, hm, resolverError]
  exact ⟨hstep, fun rest => by rw [execFields_cons, hstep]; rfl⟩

/-- C2, witness: the amended behaviour at the aliased failing field. -/
theorem c2_resolver_failure_witness :
    (execField demoSchema.queryResolvers "query" [] (Json.obj [])
        ⟨"failing", "f", [], []⟩).write = some ("failing", Json.null) := by
  rw [(c2_resolver_failure demoSchema.queryResolvers "query" [] (Json.obj [])
    ⟨"failing", "f", [], []⟩ failingResolver "Something went wrong" rfl rfl).1]

/-- C3, counterexample: the bare word `tomato` is not quoted and is neither
`true`, `false` nor `null`, yet it parses to the Bool `false` (the dispatch
sends every word starting with `t` or `f` through `parseBool`), not to the
String `"tomato"` the claim states. -/
theorem c3_counterexample :
    parseValueF 1 "tomato".toList 0 = .ok (Json.bool false, [], 6) ∧
    parse "\x7b f(x: tomato) \x7d" =
      .ok ⟨"query", "", [⟨"f", "", [("x", Json.bool false)], []⟩]⟩ ∧
    Json.bool false ≠ Json.str "tomato" := by
  refine ⟨by decide, by decide, by decide⟩

/-- C3, amended: in value position a bare word is dispatched on its first
character: a word starting with `t` or `f` parses through `parseBool` to a
Bool that is `true` exactly for the word `true` (so `false`, and any other
such word, gives `false`); a word starting with `n` parses through
`parseNull` to `Null` whatever the word; every other bare word (not starting
with a digit) parses to a String equal to the word. -/
theorem c3_bare_words (c : Char) (rest : List Char) (pos fuel : Nat)
    (hid : ∀ x ∈ c :: rest, isIdentChar x = true) (hd : isDigitC c = false) :
    parseValueF (fuel + 1) (c :: rest) pos =
      (if c = 't' ∨ c = 'f' then
        .ok (Json.bool ((⟨c :: rest⟩ : String) == "true"), [], pos + (c :: rest).length)
      else if c = 'n' then .ok (Json.null, [], pos + (c :: rest).length)
      else .ok (Json.str ⟨c :: rest⟩, [], pos + (c :: rest).length)) := by
  have hcid := hid c (by simp)
  have hq : ¬c = '"' := fun h => absurd (h ▸ hcid) (by decide)
  have hm : ¬c = '-' := fun h => absurd (h ▸ hcid) (by decide)
  have hbr : ¬c = '\x7b' := fun h => absurd (h ▸ hcid) (by decide)
  have ha : ¬c = '[' := fun h => absurd (h ▸ hcid) (by decide)
  have hnum : (decide (c = '-') || isDigitC c) = false := by
    simp [hm, hd]
  have hws := skipWs_cons_not_ws c rest pos (isWsChar_of_isIdentChar c hcid)
  simp only [parseValueF, hws, peekC, List.headD, liftE]
  rw [if_neg hq, if_neg (show ¬(decide (c = '-') || isDigitC c) = true by simp [hnum])]
  by_cases htf : (decide (c = 't') || decide (c = 'f')) = true
  · have htf2 : c = 't' ∨ c = 'f' := by simpa using htf
    rw [if_pos htf, if_pos htf2, parseBool_all c rest pos hid]
  · have htf2 : ¬(c = 't' ∨ c = 'f') := by simpa using htf
    rw [if_neg htf, if_neg htf2]
    by_cases hn : c = 'n'
    · rw [if_pos hn, if_pos hn, parseNull_all c rest pos hid]
    · rw [if_neg hn, if_neg hn, if_neg hbr, if_neg ha,
        parseIdentifier_all c rest pos hid]
      rfl

/-- C3, witness: the amended dispatch at the enum-style bare word `RED`,
which parses to the String `"RED"`. -/
theorem c3_bare_words_witness :
    parseValueF 1 ['R', 'E', 'D'] 0 = .ok (Json.str "RED", [], 3) := by
  have h := c3_bare_words 'R' ['E', 'D'] 0 0 (by decide) (by decide)
  simpa using h

/-- C4: when parsing fails, execute returns the envelope with `data = Null`
and exactly one error whose message is `"Parse error: "` followed by the
diagnostic, and no resolver is invoked at all during the call. -/
theorem c4_parse_failure (sch : Schema) (s : String) (vars : List (String × Json))
    (ctx : Json) (e : String) (hp : parse s = .error e) :
    sch.execute s vars ctx =
      Json.obj [("data", Json.null),
        ("errors", Json.arr [Json.obj [("message", Json.str ("Parse error: " ++ e))]])] ∧
    (sch.execute s vars ctx).getKey "data" = some Json.null ∧
    (∃ msg tail2, (sch.execute s vars ctx).getKey "errors" =
        some (Json.arr [Json.obj [("message", Json.str msg)]]) ∧
      msg = "Parse error: " ++ tail2) ∧
    sch.executeTrace s vars ctx = [] := by
  have henv : sch.executeT s vars ctx =
      (Json.obj [("data", Json.null),
        ("errors", Json.arr [Json.obj [("message", Json.str ("Parse error: " ++ e))]])],
       []) := by
    rw [Schema.executeT, hp]
  refine ⟨?_, ?_, ⟨"Parse error: " ++ e, e, ?_, rfl⟩, ?_⟩ <;>
    simp [Schema.execute, Schema.executeTrace, henv, Json.getKey, lookupKey]

/-- C4, witness: the parse-failure contract at a concrete malformed query. -/
theorem c4_parse_failure_witness :
    demoSchema.execute "not valid graphql" [] (Json.obj []) =
      Json.obj [("data", Json.null),
        ("errors", Json.arr [Json.obj [("message",
          Json.str "Parse error: Expected 'query' or 'mutation', got 'not'")]])] ∧
    demoSchema.executeTrace "not valid graphql" [] (Json.obj []) = [] := by
  have h := c4_parse_failure demoSchema "not valid graphql" [] (Json.obj [])
    "Expected 'query' or 'mutation', got 'not'" (by decide)
  exact ⟨h.1, h.2.2.2⟩

/-- C5, counterexample: the unknown-field error object carries a third key
`locations` holding an empty array, so the envelope is not exactly the
two-key-error one the claim states. -/
theorem c5_counterexample :
    Schema.empty.execute "\x7b unknownField \x7d" [] (Json.obj []) ≠
      Json.obj [("data", Json.obj []),
        ("errors", Json.arr [Json.obj
          [("message", Json.str "Cannot query field 'unknownField' on type 'query'"),
           ("path", Json.arr [Json.str "unknownField"])]])] ∧
    Schema.empty.execute "\x7b unknownField \x7d" [] (Json.obj []) =
      Json.obj [("data", Json.obj []),
        ("errors", Json.arr [Json.obj
          [("locations", Json.arr []),
           ("message", Json.str "Cannot query field 'unknownField' on type 'query'"),
           ("path", Json.arr [Json.str "unknownField"])]])] := by
  refine ⟨by decide, by decide⟩

/-- C5, amended: an unknown top-level field appends an error with message
`Cannot query field '<name>' on type '<operationType>'`, path `[name]` and a
`locations` key holding an empty array; no data key is written for the field
and execution continues; `\x7b unknownField \x7d` against an empty registry
yields exactly the envelope whose single error carries those three keys. -/
theorem c5_unknown_field (R : String → Option Resolver) (opType : String)
    (vars : List (String × Json)) (ctx : Json) (f : FieldSelection)
    (hr : R f.name = none) :
    execField R opType vars ctx f = ⟨[], none, [unknownFieldError f.name opType]⟩ ∧
    unknownFieldError f.name opType =
      Json.obj [("locations", Json.arr []),
        ("message", Json.str ("Cannot query field '" ++ f.name ++ "' on type '"
          ++ opType ++ "'")),
        ("path", Json.arr [Json.str f.name])] ∧
    (∀ rest, execFields R opType vars ctx (f :: rest) =
      ⟨(execFields R opType vars ctx rest).invs,
       (execFields R opType vars ctx rest).writes,
       [unknownFieldError f.name opType] ++ (execFields R opType vars ctx rest).errs⟩) ∧
    Schema.empty.execute "\x7b unknownField \x7d" [] (Json.obj []) =
      Json.obj [("data", Json.obj []),
        ("errors", Json.arr [Json.obj
          [("locations", Json.arr []),
           ("message", Json.str "Cannot query field 'unknownField' on type 'query'"),
           ("path", Json.arr [Json.str "unknownField"])]])] := by
  have hstep : execField R opType vars ctx f =
      ⟨[], none, [unknownFieldError f.name opType]⟩ := by
    simp only [execField, hr]
  refine ⟨hstep, rfl, fun rest => by rw [execFields_cons, hstep]; rfl, by decide⟩

/-- C5, witness: the amended unknown-field behaviour at `unknownField`
against the empty registry. -/
theorem c5_unknown_field_witness :
    execField Schema.empty.queryResolvers "query" [] (Json.obj [])
        ⟨"unknownField", "", [], []⟩ =
      ⟨[], none, [unknownFieldError "unknownField" "query"]⟩ :=
  (c5_unknown_field Schema.empty.queryResolvers "query" [] (Json.obj [])
    ⟨"unknownField", "", [], []⟩ rfl).1

/-- C6: a registered top-level field's resolver is invoked once, with the
merged argument object (literal arguments extended by exactly the variable
entries whose key is not already literal: a literal always wins) and with
the context unmodified. -/
theorem c6_argument_merging (R : String → Option Resolver) (opType : String)
    (vars : List (String × Json)) (ctx : Json) (f : FieldSelection)
    (r : Resolver) (hr : R f.name = some r) :
    (execField R opType vars ctx f).invs =
      [⟨f.name, Json.obj (mergeArgs f.arguments vars), ctx⟩] ∧
    (∀ k, lookupKey (mergeArgs f.arguments vars) k =
      (lookupKey f.arguments k).or (lookupKey vars k)) ∧
    (∀ k, containsKey (mergeArgs f.arguments vars) k =
      (containsKey f.arguments k || containsKey vars k)) := by
  refine ⟨?_, fun k => mergeArgs_lookup f.arguments vars k,
    fun k => containsKey_mergeArgs f.arguments vars k⟩
  simp only [execField, hr]
  rcases r (Json.obj (mergeArgs f.arguments vars)) ctx with e | v <;> simp

/-- C6, witness: merging at a field with literal `id`, variables supplying a
conflicting `id` and a fresh `v`: the literal wins and `v` is added. -/
theorem c6_argument_merging_witness :
    (execField echoSchema.queryResolvers "query" [("id", Json.int 9), ("v", Json.int 2)]
        (Json.obj []) ⟨"f", "", [("id", Json.int 1)], []⟩).invs =
      [⟨"f", Json.obj (mergeArgs [("id", Json.int 1)]
        [("id", Json.int 9), ("v", Json.int 2)]), Json.obj []⟩] ∧
    lookupKey (mergeArgs [("id", Json.int 1)] [("id", Json.int 9), ("v", Json.int 2)])
        "id" = some (Json.int 1) ∧
    lookupKey (mergeArgs [("id", Json.int 1)] [("id", Json.int 9), ("v", Json.int 2)])
        "v" = some (Json.int 2) := by
  have h := c6_argument_merging echoSchema.queryResolvers "query"
    [("id", Json.int 9), ("v", Json.int 2)] (Json.obj []) ⟨"f", "", [("id", Json.int 1)], []⟩
    (fun _ _ => .ok (Json.int 7)) rfl
  refine ⟨h.1, ?_, ?_⟩ <;> decide

/-- C8, counterexample: the parser accepts the explicitly empty selection
set, producing a ParsedQuery whose selection list is empty. -/
theorem c8_counterexample :
    parse "\x7b\x7d" = .ok ⟨"query", "", []⟩ ∧
    parse "query \x7b\x7d" = .ok ⟨"query", "", []⟩ := by
  refine ⟨by decide, by decide⟩

/-- C8, amended: the parser accepts the explicitly empty selection set —
`\x7b\x7d` and `query \x7b\x7d` produce a zero-length selection list — and
for every accepted query whose selection list is empty, at the very spot of
that query where `parse` invokes the selection-set production (the state
`docSelInput` computes from the query text), the opening brace is followed,
after insignificant characters, directly by the closing brace. -/
theorem c8_empty_selections :
    parse "\x7b\x7d" = .ok ⟨"query", "", []⟩ ∧
    parse "query \x7b\x7d" = .ok ⟨"query", "", []⟩ ∧
    ∀ (s : String) (q : ParsedQuery), parse s = .ok q → q.selections = [] →
      ∃ lsel psel l1 p1,
        docSelInput s.toList 0 = some (lsel, psel) ∧
        expectC '\x7b' lsel psel = .ok (l1, p1) ∧
        peekC (skipWs l1 p1).1 = '\x7d' := by
  refine ⟨by decide, by decide, ?_⟩
  intro s q hp hempty
  rw [parse] at hp
  rcases hd : parseDocumentF (parseFuel s) s.toList 0 with e | ⟨q0, l0, p0⟩
  · rw [hd] at hp
    rcases e <;> simp at hp
  · rw [hd] at hp
    simp only at hp
    cases hp
    obtain ⟨lsel, psel, hsi, hss⟩ := parseDocumentF_selInput _ _ _ _ _ _ hd
    rw [hempty] at hss
    obtain ⟨l1, p1, he, hpk⟩ := parseSelectionSetF_empty _ _ _ _ _ hss
    exact ⟨lsel, psel, l1, p1, hsi, he, hpk⟩

/-- C8, witness: the amended statement applied at the concrete accepted
query `query q \x7b\x7d`, whose selection list is empty. -/
theorem c8_empty_selections_witness :
    ∃ lsel psel l1 p1,
      docSelInput ("query q \x7b\x7d").toList 0 = some (lsel, psel) ∧
      expectC '\x7b' lsel psel = .ok (l1, p1) ∧
      peekC (skipWs l1 p1).1 = '\x7d' :=
  c8_empty_selections.2.2 "query q \x7b\x7d" ⟨"query", "q", []⟩ (by decide) rfl

/-- C9: unknown-field errors carry exactly the three keys `locations` (an
empty array), `message` and `path`, while resolver-failure errors carry
exactly the two keys `message` and `path`. -/
theorem c9_error_shapes (R : String → Option Resolver) (opType : String)
    (vars : List (String × Json)) (ctx : Json) (f : FieldSelection) :
    (R f.name = none →
      (execField R opType vars ctx f).errs = [unknownFieldError f.name opType] ∧
      keysOf (unknownFieldError f.name opType).objEntries =
        ["locations", "message", "path"] ∧
      (unknownFieldError f.name opType).getKey "locations" = some (Json.arr [])) ∧
    (∀ r msg, R f.name = some r →
      r (Json.obj (mergeArgs f.arguments vars)) ctx = .error msg →
      (execField R opType vars ctx f).errs = [resolverError msg f.name] ∧
      keysOf (resolverError msg f.name).objEntries = ["message", "path"] ∧
      (resolverError msg f.name).getKey "locations" = none) := by
  constructor
  · intro hr
    refine ⟨?_, rfl, rfl⟩
    simp only [execField, hr]
  · intro r msg hr hm
    refine ⟨?_, rfl, rfl⟩
    simp only [execField, hr, hm]

/-- C9, witness: both error shapes at concrete fields of `demoSchema`. -/
theorem c9_error_shapes_witness :
    (execField demoSchema.queryResolvers "query" [] (Json.obj [])
        ⟨"nope", "", [], []⟩).errs = [unknownFieldError "nope" "query"] ∧
    keysOf (unknownFieldError "nope" "query").objEntries =
      ["locations", "message", "path"] ∧
    (execField demoSchema.queryResolvers "query" [] (Json.obj [])
        ⟨"failing", "", [], []⟩).errs =
      [resolverError "Something went wrong" "failing"] ∧
    keysOf (resolverError "Something went wrong" "failing").objEntries =
      ["message", "path"] := by
  have h1 := (c9_error_shapes demoSchema.queryResolvers "query" [] (Json.obj [])
    ⟨"nope", "", [], []⟩).1 rfl
  have h2 := (c9_error_shapes demoSchema.queryResolvers "query" [] (Json.obj [])
    ⟨"failing", "", [], []⟩).2 failingResolver "Something went wrong" rfl rfl
  exact ⟨h1.1, h1.2.1, h2.1, h2.2.1⟩

/-- C10, counterexample: `-.5` is a minus sign not followed by a digit, yet
the query `\x7b f(x: -.5) \x7d` does not produce the parse-failure envelope:
it parses to a Float argument and the resolver runs, so `data` is an Object,
not `Null`. -/
theorem c10_counterexample :
    echoSchema.execute "\x7b f(x: -.5) \x7d" [] (Json.obj []) =
      Json.obj [("data", Json.obj [("f", Json.int 7)])] ∧
    (echoSchema.execute "\x7b f(x: -.5) \x7d" [] (Json.obj [])).getKey "data" ≠
      some Json.null ∧
    parse "\x7b f(x: -.5) \x7d" =
      .ok ⟨"query", "", [⟨"f", "", [("x", Json.float (mkRat (-5) 10))], []⟩]⟩ := by
  refine ⟨by decide, by decide, by decide⟩

/-- C10, amended: execute always returns an envelope object carrying a
`data` key, whatever the query text; an integer literal outside the host
`int` range makes `stoi` throw, and a minus sign followed by neither a digit
nor a fraction makes `stoi` throw (both surfacing as the parse-failure
envelope through the outermost handler), while a minus sign followed by
`.` and digits is accepted by `stod` and yields a Float value, not a
failure. -/
theorem c10_totality_and_numbers (sch : Schema) (s : String)
    (vars : List (String × Json)) (ctx : Json) :
    (∃ entries, sch.execute s vars ctx = Json.obj entries ∧
      containsKey entries "data" = true) ∧
    (∀ d pos, d ≠ [] → (∀ c ∈ d, isDigitC c = true) →
      (2147483647 : Int) < digitsVal ⟨d⟩ → parseNumber d pos = .error "stoi") ∧
    (∀ rest pos, (∀ c l2, rest = c :: l2 → isDigitC c = false ∧ ¬c = '.') →
      parseNumber ('-' :: rest) pos = .error "stoi") ∧
    (∀ d pos, d ≠ [] → (∀ c ∈ d, isDigitC c = true) →
      parseNumber ('-' :: '.' :: d) pos =
        .ok (Json.float (mkRat (-(digitsVal ⟨d⟩ : Int)) (10 ^ d.length)), [],
          pos + 2 + d.length)) := by
  refine ⟨?_, parseNumber_overflow, parseNumber_minus_stoi, parseNumber_minus_frac⟩
  rw [Schema.execute, Schema.executeT]
  rcases parse s with e | parsed
  · exact ⟨_, rfl, rfl⟩
  · simp only
    split
    · exact ⟨_, rfl, rfl⟩
    · exact ⟨_, rfl, rfl⟩

/-- C10, witness: the amended statement at concrete inputs: an out-of-range
literal produces the parse-failure envelope, and `-.5` a Float. -/
theorem c10_totality_and_numbers_witness :
    (∃ entries, echoSchema.execute "\x7b f(x: 2147483648) \x7d" [] (Json.obj []) =
      Json.obj entries ∧ containsKey entries "data" = true) ∧
    parseNumber "2147483648".toList 0 = .error "stoi" ∧
    parseNumber ['-', ')'] 0 = .error "stoi" ∧
    parseNumber ['-', '.', '5'] 0 = .ok (Json.float (mkRat (-5) 10), [], 3) ∧
    echoSchema.execute "\x7b f(x: 2147483648) \x7d" [] (Json.obj []) =
      Json.obj [("data", Json.null),
        ("errors", Json.arr [Json.obj [("message", Json.str "Parse error: stoi")]])] := by
  have h := c10_totality_and_numbers echoSchema "\x7b f(x: 2147483648) \x7d" []
    (Json.obj [])
  refine ⟨h.1, ?_, ?_, ?_, by decide⟩
  · have := h.2.1 "2147483648".toList 0 (by decide) (by decide) (by decide)
    simpa using this
  · exact h.2.2.1 [')'] 0 (by intro c l2 hc; cases hc; exact ⟨by decide, by decide⟩)
  · have := h.2.2.2 ['5'] 0 (by decide) (by decide)
    simpa using this

/-- C1: a failing top-level selection (unknown name or failing resolver)
contributes an error but never aborts its siblings: the loop's invocations,
data writes and errors over `l1 ++ f :: l2` are exactly the concatenation of
the three parts' own contributions, in source order, and the parts for `l1`
and `l2` are literally those of the execution with `f` absent; the
envelope's `data` stays an Object. -/
theorem c1_sibling_isolation (sch : Schema) (s : String)
    (vars : List (String × Json)) (ctx : Json) (q : ParsedQuery)
    (l1 l2 : List FieldSelection) (f : FieldSelection)
    (hp : parse s = .ok q) (hsel : q.selections = l1 ++ f :: l2)
    (hf : selectionFails (registryOf sch q.operationType) vars ctx f) :
    (execField (registryOf sch q.operationType) q.operationType vars ctx f).errs ≠ [] ∧
    execFields (registryOf sch q.operationType) q.operationType vars ctx (l1 ++ f :: l2) =
      ⟨(execFields (registryOf sch q.operationType) q.operationType vars ctx l1).invs ++
         (execField (registryOf sch q.operationType) q.operationType vars ctx f).invs ++
         (execFields (registryOf sch q.operationType) q.operationType vars ctx l2).invs,
       (execFields (registryOf sch q.operationType) q.operationType vars ctx l1).writes ++
         (execField (registryOf sch q.operationType) q.operationType vars ctx f).write.toList ++
         (execFields (registryOf sch q.operationType) q.operationType vars ctx l2).writes,
       (execFields (registryOf sch q.operationType) q.operationType vars ctx l1).errs ++
         (execField (registryOf sch q.operationType) q.operationType vars ctx f).errs ++
         (execFields (registryOf sch q.operationType) q.operationType vars ctx l2).errs⟩ ∧
    execFields (registryOf sch q.operationType) q.operationType vars ctx (l1 ++ l2) =
      ⟨(execFields (registryOf sch q.operationType) q.operationType vars ctx l1).invs ++
         (execFields (registryOf sch q.operationType) q.operationType vars ctx l2).invs,
       (execFields (registryOf sch q.operationType) q.operationType vars ctx l1).writes ++
         (execFields (registryOf sch q.operationType) q.operationType vars ctx l2).writes,
       (execFields (registryOf sch q.operationType) q.operationType vars ctx l1).errs ++
         (execFields (registryOf sch q.operationType) q.operationType vars ctx l2).errs⟩ ∧
    (sch.execute s vars ctx).getKey "data" =
      some (Json.obj (applyWrites
        (execFields (registryOf sch q.operationType) q.operationType vars ctx
          (l1 ++ f :: l2)).writes)) := by
  refine ⟨?_, ?_, execFields_append _ _ _ _ l1 l2, ?_⟩
  · rw [selectionFails] at hf
    rcases hR : registryOf sch q.operationType f.name with _ | r
    · rw [execField, hR]
      simp
    · rw [hR] at hf
      obtain ⟨msg, hmsg⟩ := hf
      rw [execField, hR]
      simp only [hmsg]
      simp
  · rw [execFields_append, execFields_cons]
    simp [List.append_assoc]
  · rw [Schema.execute, Schema.executeT, hp]
    simp only [← hsel]
    split
    · simp [Json.getKey, lookupKey]
    · simp [Json.getKey, lookupKey]

/-- C1, witness: the failing field `failing` beside `hello` in `demoSchema`
still leaves an Object `data`, and its error is recorded. -/
theorem c1_sibling_isolation_witness :
    (execField (registryOf demoSchema "query") "query" [] (Json.obj [])
        ⟨"failing", "", [], []⟩).errs ≠ [] ∧
    (demoSchema.execute "\x7b hello failing \x7d" [] (Json.obj [])).getKey "data" =
      some (Json.obj (applyWrites
        (execFields (registryOf demoSchema "query") "query" [] (Json.obj [])
          ([⟨"hello", "", [], []⟩] ++ ⟨"failing", "", [], []⟩ :: [])).writes)) := by
  have h := c1_sibling_isolation demoSchema "\x7b hello failing \x7d" [] (Json.obj [])
    ⟨"query", "", [⟨"hello", "", [], []⟩, ⟨"failing", "", [], []⟩]⟩
    [⟨"hello", "", [], []⟩] [] ⟨"failing", "", [], []⟩ (by decide) rfl
    ⟨"Something went wrong", rfl⟩
  exact ⟨h.1, h.2.2.2⟩

/-- C7, counterexample: a selection with non-empty child selections whose
source value is an Object is not copied verbatim as the claim's fallback
case states: nested filtering applies, dropping the unselected key `c`. -/
theorem c7_counterexample :
    filterFields (Json.obj [("a", Json.obj [("b", Json.int 1), ("c", Json.int 2)])])
      [⟨"a", "", [], [⟨"b", "", [], []⟩]⟩] [] = [("a", Json.obj [("b", Json.int 1)])] ∧
    Json.obj [("b", Json.int 1)] ≠ Json.obj [("b", Json.int 1), ("c", Json.int 2)] := by
  constructor
  · simp +decide [filterFields, filterItems, aliasOrName, Json.getKey, lookupKey,
      Json.isObj, Json.isArr, setEntry, strLt, charsLt]
  · decide

/-- C7, amended: the projector processes selections left to right; a
selection whose name the source lacks is silently omitted; one whose child
selections are non-empty recursively filters an Object source value and maps
element-wise over an Array source value (filtering Object elements, passing
other elements through); otherwise the value is copied verbatim; the entry
goes under the alias-or-name, and the output holds no key beyond those of
the incoming target and the selections whose name is present. -/
theorem c7_projection :
    (∀ source sel rest target, filterFields source (sel :: rest) target =
      filterFields source rest (filterFields source [sel] target)) ∧
    (∀ source sel target, source.getKey sel.name = none →
      filterFields source [sel] target = target) ∧
    (∀ source sel target v, source.getKey sel.name = some v →
      filterFields source [sel] target =
        setEntry (aliasOrName sel)
          (if !sel.selections.isEmpty && v.isObj then
            Json.obj (filterFields v sel.selections [])
          else if !sel.selections.isEmpty && v.isArr then
            Json.arr (filterItems v.arrItems sel.selections)
          else v) target) ∧
    (∀ items sels, filterItems items sels =
      items.map fun item =>
        if item.isObj then Json.obj (filterFields item sels []) else item) ∧
    (∀ source sels target k, containsKey (filterFields source sels target) k = true →
      containsKey target k = true ∨
        ∃ sel ∈ sels, aliasOrName sel = k ∧ source.getKey sel.name ≠ none) := by
  have hcomp : ∀ (source : Json) (sel : FieldSelection) (rest : List FieldSelection)
      (target : List (String × Json)), filterFields source (sel :: rest) target =
      filterFields source rest (filterFields source [sel] target) := by
    intro source sel rest target
    conv_lhs => rw [filterFields]
    conv_rhs => rw [filterFields, filterFields]
  have hnone : ∀ (source : Json) (sel : FieldSelection) (target : List (String × Json)),
      source.getKey sel.name = none → filterFields source [sel] target = target := by
    intro source sel target h
    rw [filterFields, h, filterFields]
  have hsome : ∀ (source : Json) (sel : FieldSelection) (target : List (String × Json))
      (v : Json), source.getKey sel.name = some v →
      filterFields source [sel] target =
        setEntry (aliasOrName sel)
          (if !sel.selections.isEmpty && v.isObj then
            Json.obj (filterFields v sel.selections [])
          else if !sel.selections.isEmpty && v.isArr then
            Json.arr (filterItems v.arrItems sel.selections)
          else v) target := by
    intro source sel target v h
    rw [filterFields, h, filterFields]
    split
    next heq => exact Option.noConfusion heq
    next v2 heq =>
      injection heq with hv
      subst hv
      split
      · rfl
      · split <;> rfl
  refine ⟨hcomp, hnone, hsome, ?_, ?_⟩
  · intro items sels
    induction items with
    | nil => rw [filterItems]; rfl
    | cons item rest ih => rw [filterItems, ih]; rfl
  · intro source sels
    induction sels with
    | nil =>
      intro target k h
      rw [filterFields] at h
      exact Or.inl h
    | cons sel rest ih =>
      intro target k h
      rw [hcomp] at h
      rcases ih _ k h with h2 | ⟨sel2, hmem, hk, hne⟩
      · rcases hg : source.getKey sel.name with _ | v
        · rw [hnone source sel target hg] at h2
          exact Or.inl h2
        · rw [hsome source sel target v hg] at h2
          rw [containsKey_setEntry] at h2
          rcases (by simpa using h2 : k = aliasOrName sel ∨ containsKey target k = true)
            with h3 | h3
          · exact Or.inr ⟨sel, by simp, h3.symm, by simp [hg]⟩
          · exact Or.inl h3
      · exact Or.inr ⟨sel2, by simp [hmem], hk, hne⟩

/-- C7, witness: the amended projection at a concrete source: nested Object
filtering under an alias, and the key-scoping bound. -/
theorem c7_projection_witness :
    filterFields (Json.obj [("u", Json.obj [("b", Json.int 1), ("c", Json.int 2)])])
        [⟨"u", "alias2", [], [⟨"b", "", [], []⟩]⟩] [] =
      setEntry "alias2"
        (Json.obj (filterFields (Json.obj [("b", Json.int 1), ("c", Json.int 2)])
          [⟨"b", "", [], []⟩] [])) [] ∧
    (containsKey (filterFields (Json.obj [("u", Json.int 3)]) [⟨"u", "", [], []⟩] [])
        "zzz" = true →
      containsKey [] "zzz" = true ∨
        ∃ sel ∈ [(⟨"u", "", [], []⟩ : FieldSelection)], aliasOrName sel = "zzz" ∧
          (Json.obj [("u", Json.int 3)]).getKey sel.name ≠ none) := by
  constructor
  · have h := c7_projection.2.2.1 (Json.obj [("u", Json.obj [("b", Json.int 1),
      ("c", Json.int 2)])]) ⟨"u", "alias2", [], [⟨"b", "", [], []⟩]⟩ []
      (Json.obj [("b", Json.int 1), ("c", Json.int 2)]) (by decide)
    rw [h]
    rfl
  · exact c7_projection.2.2.2.2 (Json.obj [("u", Json.int 3)]) [⟨"u", "", [], []⟩] [] "zzz"

end GraphQL
